import Mathlib

/-!
Verification of the Realtime room-server / discovery repository.

The development is a shallow embedding of the TypeScript sources:
  * `src/client.ts`  — per-socket `Client` (heartbeat counter, ping/pong),
  * `src/room.ts`    — `Room` (keyed client set, join/leave/terminate),
  * `src/room-server.ts` — `RoomServer` (authentication, admission, close
    handling, room lifecycle, shutdown),
  * `src/discovery.ts`   — `Discovery` (fleet mirror, ping/event ingestion,
    token issuance).

JavaScript `Map`s are modelled as association lists, JS mutation as explicit
state passing, thrown-and-caught exceptions as sum types, and the external
JSON web token library at the abstraction the sources rely on (a signed
token carries its payload, the signing secret and the subject claim;
verification checks secret and subject).  Opaque `properties` blobs are
modelled by a small JSON-atom type `JVal`.
-/

/-- Model of an opaque JSON-shaped `properties` blob.  The sources never
inspect properties; they only store and forward them, so a type of JSON
atoms with decidable equality suffices for every statement below. -/
inductive JVal where
  | jNull : JVal
  | jBool : Bool → JVal
  | jNum : Int → JVal
  | jStr : String → JVal
deriving DecidableEq, Repr

/-! ## Token scheme (`discovery.ts` : `ITokenOptions`, `generateToken`;
`room-server.ts` : `_authenticate`) -/

/-- Embedding of the `ITokenOptions` interface of `discovery.ts`.
`undefined` optional fields are `none`. -/
structure ITokenOptions where
  publicUrl : String
  roomId : String
  roomProperties : Option JVal
  clientId : String
  clientProperties : Option JVal
  joinOnly : Option Bool
  expiresIn : Option String
deriving DecidableEq, Repr

/-- The payload object built inside `Discovery.generateToken` (field for
field, in source order).  `JSON` serialisation drops `undefined` members,
so an absent optional field round-trips as `none`. -/
structure TokenPayload where
  publicUrl : String
  roomId : String
  roomProperties : Option JVal
  clientId : String
  clientProperties : Option JVal
  joinOnly : Option Bool
deriving DecidableEq, Repr

/-- Model of a token produced by the external `jsonwebtoken` library:
`jwt.sign(payload, secret, {expiresIn, subject})` yields a token that
carries its payload, the signing secret and the subject claim. -/
structure SignedToken where
  payload : TokenPayload
  secret : String
  subject : String
  expiresIn : String
deriving DecidableEq, Repr

/-- `Discovery.generateToken` (`discovery.ts`): default expiry `"1m"`,
payload built from the six option fields, signed with the shared secret
under subject `"joinRoom"`. -/
def generateToken (tokenSecret : String) (options : ITokenOptions) : SignedToken :=
  { payload :=
      { publicUrl := options.publicUrl
        roomId := options.roomId
        roomProperties := options.roomProperties
        clientId := options.clientId
        clientProperties := options.clientProperties
        joinOnly := options.joinOnly }
    secret := tokenSecret
    subject := "joinRoom"
    expiresIn := options.expiresIn.getD "1m" }

/-- Model of `jwt.verify(token, secret, {subject})`: verification succeeds
exactly when the token was signed with the same secret and subject, and
then returns the signed payload.  (Real-time expiry of the `exp` claim
belongs to the external library and is not modelled.) -/
def jwtVerify (token : SignedToken) (secret subject : String) :
    Except String TokenPayload :=
  if token.secret = secret ∧ token.subject = subject then
    Except.ok token.payload
  else
    Except.error "jwt verification failed"

/-! ## Client heartbeat (`client.ts` : `Client.ping`, the `pong` handler,
`Room._pingClients`) -/

/-- Heartbeat-relevant state of one `Client`: the `missedPings` counter,
whether the socket has been closed (`terminate`/`disconnect` or the socket
reaching the CLOSING state), and a count of ping frames written to the
socket (`this._socket.ping()` calls). -/
structure ClientHB where
  missedPings : Nat
  closed : Bool
  pingsSent : Nat
deriving DecidableEq, Repr

/-- `Client.ping(missedLimit)` (`client.ts`): a no-op on a closing socket;
otherwise, if `missedPings >= missedLimit` the client is terminated
(forced close), else the counter is incremented and a ping frame is sent.
`Room._pingClients` always passes the room option `missedPingsLimit`, so
the limit is always defined. -/
def clientPing (missedLimit : Nat) (c : ClientHB) : ClientHB :=
  if c.closed then c
  else if missedLimit ≤ c.missedPings then
    { c with closed := true }
  else
    { c with missedPings := c.missedPings + 1, pingsSent := c.pingsSent + 1 }

/-- The `pong` socket handler installed in the `Client` constructor:
resets `missedPings` to 0.  After `terminate`/`disconnect` all socket
listeners are removed, so a pong on a closed client has no effect. -/
def clientPong (c : ClientHB) : ClientHB :=
  if c.closed then c else { c with missedPings := 0 }

/-- `Room._pingClients` (`room.ts`): on each heartbeat tick, call
`client.ping(missedPingsLimit)` on every member. -/
def pingClients (missedLimit : Nat) (clients : List ClientHB) : List ClientHB :=
  clients.map (clientPing missedLimit)

/-! ## Standalone `Room` (`room.ts`), driven through its public methods.

This models the `Room` class on its own: `join`, `leave` and `terminate`
called in an arbitrary order, with the events the room emits recorded in
an append-only log.  (`terminate` disconnects each member's socket and
emits `terminated`; note that the source does not clear `_clients` and
keeps accepting `join`/`leave` calls afterwards.) -/

/-- Events emitted by a standalone `Room` (`this.emit(...)` calls). -/
inductive RoomEv where
  | joined : String → RoomEv
  | leftRoom : String → RoomEv
  | terminated : RoomEv
deriving DecidableEq, Repr

/-- State of a standalone `Room`: the keyed client set (client ids, in
insertion order) and the log of events emitted so far. -/
structure RoomState where
  clients : List String
  log : List RoomEv
deriving DecidableEq, Repr

/-- `Room.join` (`room.ts`): if the id is not already present, insert the
client and emit `joined`; otherwise a no-op. -/
def roomJoin (st : RoomState) (clientId : String) : RoomState :=
  if clientId ∈ st.clients then st
  else { st with clients := st.clients ++ [clientId],
                 log := st.log ++ [RoomEv.joined clientId] }

/-- `Room.leave` (`room.ts`): if present, remove the client, emit `left`,
then disconnect the client; otherwise a no-op. -/
def roomLeave (st : RoomState) (clientId : String) : RoomState :=
  if clientId ∈ st.clients then
    { st with clients := st.clients.erase clientId,
              log := st.log ++ [RoomEv.leftRoom clientId] }
  else st

/-- `Room.terminate` (`room.ts`): disconnect every member's socket, then
emit `terminated`.  The client map is not cleared and no flag is set. -/
def roomTerminate (st : RoomState) : RoomState :=
  { st with log := st.log ++ [RoomEv.terminated] }

/-- One public-method call on a standalone `Room`. -/
inductive RoomCall where
  | join : String → RoomCall
  | leave : String → RoomCall
  | terminate : RoomCall
deriving DecidableEq, Repr

/-- Apply one public-method call to a standalone `Room`. -/
def roomStep (st : RoomState) (call : RoomCall) : RoomState :=
  match call with
  | RoomCall.join clientId => roomJoin st clientId
  | RoomCall.leave clientId => roomLeave st clientId
  | RoomCall.terminate => roomTerminate st

/-- Run a sequence of public-method calls on a freshly constructed `Room`. -/
def roomRun (calls : List RoomCall) : RoomState :=
  calls.foldl roomStep { clients := [], log := [] }

/-- Remove the first occurrence of `a` from a list (the effect of a JS
`Map.delete` keyed on `a`, and of consuming one attached handler). -/
def eraseFirst {α : Type} [DecidableEq α] : List α → α → List α
  | [], _ => []
  | x :: xs, a => if x = a then xs else x :: eraseFirst xs a

/-! ## RoomServer (`room-server.ts`), composed with `Room` and `Client`.

The server owns a keyed map of `Room`s, an integer `_clientCount`, and
attaches a `socket.once(close)` handler to every admitted client.  The
model keeps every `Room` object ever constructed in one list (JS objects
survive removal from the map while referenced), tagging each with a unique
`ref` (object identity) and an `inMap` flag (membership in `_rooms`).
`pending` is the multiset of not-yet-fired `once(close)` handlers, each
holding the admitted client id and the `ref` of the captured room object.
`log` records the `joined` / `left` / `terminated` events emitted by the
server's rooms, tagged with the emitting room object's `ref`. -/

/-- The per-room options record after `defaults` normalisation
(`IRoomOptions` with the defaults of the `Room` constructor). -/
structure RoomOptionsV where
  pingInterval : Option Nat
  missedPingsLimit : Nat
  keepAlive : Bool
deriving DecidableEq, Repr

/-- The `Room` constructor defaults: no heartbeat, `missedPingsLimit` 1,
`keepAlive` false. -/
def defaultRoomOptions : RoomOptionsV :=
  { pingInterval := none, missedPingsLimit := 1, keepAlive := false }

/-- Immutable configuration of a `RoomServer`: its public url, the shared
token secret (`DISCOVERY_SECRET`), and the normalised default room
options applied to every room it creates. -/
structure RSConfig where
  publicUrl : String
  tokenSecret : String
  roomOptions : RoomOptionsV
deriving DecidableEq, Repr

/-- One `Room` object owned (now or previously) by the server.  `ref` is
the object identity, `inMap` whether the object is currently a value of
the server's `_rooms` map. -/
structure RoomObj where
  ref : Nat
  id : String
  properties : Option JVal
  options : RoomOptionsV
  clients : List String
  inMap : Bool
deriving DecidableEq, Repr

/-- Events emitted by the server's `Room` objects, tagged with the
emitting object's `ref`. -/
inductive LogEntry where
  | joined : Nat → String → LogEntry
  | leftRoom : Nat → String → LogEntry
  | terminated : Nat → LogEntry
deriving DecidableEq, Repr

/-- State of a `RoomServer` run. -/
structure RSState where
  rooms : List RoomObj
  clientCount : Int
  pending : List (String × Nat)
  nextRef : Nat
  stopped : Bool
  log : List LogEntry
deriving DecidableEq, Repr

/-- The freshly constructed server: no rooms, `_clientCount = 0`. -/
def rsInit : RSState :=
  { rooms := [], clientCount := 0, pending := [], nextRef := 0,
    stopped := false, log := [] }

/-- Lookup of `this._rooms.get(roomId)`: the room object currently in the
map under that id. -/
def lookupRoom (rooms : List RoomObj) (roomId : String) : Option RoomObj :=
  rooms.find? (fun r => r.inMap && r.id == roomId)

/-- Point update of the room object with identity `ref`. -/
def updRoom (rooms : List RoomObj) (ref : Nat) (f : RoomObj → RoomObj) :
    List RoomObj :=
  rooms.map (fun r => if r.ref = ref then f r else r)

/-- `RoomServer._removeRoom` (`room-server.ts`): if the map holds the
room's id, clear its heartbeat, notify listeners, and delete the map entry
for that id.  (The bus notifications and listener removal have no further
effect on the state modelled here.) -/
def removeRoomById (st : RSState) (roomId : String) : RSState :=
  { st with
    rooms := st.rooms.map (fun r =>
      if r.inMap ∧ r.id = roomId then { r with inMap := false } else r) }

/-- Outcome of `RoomServer._handleClient` on one new socket: either the
client was admitted into a room, or a rejection envelope
`{error, message}` was sent and the socket closed. -/
inductive HCOut where
  | admitted : String → String → HCOut
  | rejected : String → String → Bool → HCOut
deriving DecidableEq, Repr

/-- `RoomServer._authenticate` (`room-server.ts`): verify the token with
the shared secret under subject `"joinRoom"` (any verification failure is
reported as an invalid token), then reject tokens intended for another
room server. -/
def authenticate (cfg : RSConfig) (token : SignedToken) :
    Except String TokenPayload :=
  match jwtVerify token cfg.tokenSecret "joinRoom" with
  | Except.error _ => Except.error "The authentication token is invalid."
  | Except.ok data =>
    if data.publicUrl ≠ cfg.publicUrl then
      Except.error "The authentication token is intended for another room server."
    else
      Except.ok data

/-- `RoomServer._connectClient` (`room-server.ts`) together with
`_getRoom` / `_createRoom` and `Room.join`: resolve the room (creating it
with the token's `roomProperties` and the server-default room options when
absent — the token's `joinOnly` flag is never consulted); reject when the
room already holds the client id; otherwise construct the `Client`, join
it (which emits `joined`), increment `_clientCount`, and attach the
`once(close)` handler. -/
def connectClient (cfg : RSConfig) (st : RSState) (tok : TokenPayload) :
    RSState × HCOut :=
  match lookupRoom st.rooms tok.roomId with
  | some room =>
    if tok.clientId ∈ room.clients then
      (st, HCOut.rejected "Authentication Failed"
            "You are already connected to this room." true)
    else
      ({ st with
          rooms := updRoom st.rooms room.ref
            (fun r => { r with clients := r.clients ++ [tok.clientId] })
          clientCount := st.clientCount + 1
          pending := st.pending ++ [(tok.clientId, room.ref)]
          log := st.log ++ [LogEntry.joined room.ref tok.clientId] },
       HCOut.admitted tok.roomId tok.clientId)
  | none =>
    ({ st with
        rooms := st.rooms ++
          [{ ref := st.nextRef, id := tok.roomId,
             properties := tok.roomProperties, options := cfg.roomOptions,
             clients := [tok.clientId], inMap := true }]
        clientCount := st.clientCount + 1
        pending := st.pending ++ [(tok.clientId, st.nextRef)]
        nextRef := st.nextRef + 1
        log := st.log ++ [LogEntry.joined st.nextRef tok.clientId] },
     HCOut.admitted tok.roomId tok.clientId)

/-- `RoomServer._handleClient` (`room-server.ts`): treat the first frame
as the token; on an authentication error send
`{error: "Authentication Failed", message}` and close the socket. -/
def handleClient (cfg : RSConfig) (st : RSState) (frame : SignedToken) :
    RSState × HCOut :=
  match authenticate cfg frame with
  | Except.error msg => (st, HCOut.rejected "Authentication Failed" msg true)
  | Except.ok tok => connectClient cfg st tok

/-- `RoomServer._disconnectClient` (`room-server.ts`) for the close
handler of client `cid` holding the room object `ref`: `room.leave`
(remove the member if present and emit `left`), decrement `_clientCount`,
and if the room object is now empty and not `keepAlive`, remove its id
from the map. -/
def disconnectClient (st : RSState) (cid : String) (ref : Nat) : RSState :=
  match st.rooms.find? (fun r => r.ref == ref) with
  | none =>
    { st with pending := eraseFirst st.pending (cid, ref),
              clientCount := st.clientCount - 1 }
  | some room =>
    let st1 : RSState :=
      if cid ∈ room.clients then
        { st with
            rooms := updRoom st.rooms ref
              (fun r => { r with clients := eraseFirst r.clients cid })
            pending := eraseFirst st.pending (cid, ref)
            clientCount := st.clientCount - 1
            log := st.log ++ [LogEntry.leftRoom ref cid] }
      else
        { st with pending := eraseFirst st.pending (cid, ref),
                  clientCount := st.clientCount - 1 }
    if (eraseFirst room.clients cid).isEmpty ∧ ¬ room.options.keepAlive then
      removeRoomById st1 room.id
    else st1

/-- A socket `close` notification: the `once(close)` handler fires (and
is consumed) only if it is still attached. -/
def closeStep (st : RSState) (cid : String) (ref : Nat) : RSState :=
  if (cid, ref) ∈ st.pending then disconnectClient st cid ref else st

/-- `Room.terminate` called on the mapped room named `roomId`, composed
with the server's reactions: each member's socket is disconnected, which
synchronously fires that member's `once(close)` handler
(`_disconnectClient`); then the room emits `terminated`; the server's
`terminated` listener (still attached iff the room is still in the map)
then runs `_removeRoom`. -/
def terminateRoom (st : RSState) (roomId : String) : RSState :=
  match lookupRoom st.rooms roomId with
  | none => st
  | some room =>
    let st1 := room.clients.foldl (fun acc c => closeStep acc c room.ref) st
    let st2 := { st1 with log := st1.log ++ [LogEntry.terminated room.ref] }
    match st2.rooms.find? (fun r => r.ref == room.ref) with
    | some r => if r.inMap then removeRoomById st2 room.id else st2
    | none => st2

/-- `RoomServer.stop` (`room-server.ts`): the WebSocket server's `close`
callback fires once every client connection has ended (HTTP server close
semantics), i.e. once no `close` handler is pending; the callback then
removes every remaining (empty, persistent) room from the map, stops the
ping ticker and publishes `rs.stop`.  Modelled as enabled only when no
close handler is pending. -/
def serverStop (st : RSState) : RSState :=
  if st.stopped then st
  else if st.pending = [] then
    { st with rooms := st.rooms.map (fun r => { r with inMap := false }),
              stopped := true }
  else st

/-- One external stimulus handled by a running `RoomServer`. -/
inductive RSIn where
  | connect : SignedToken → RSIn
  | close : String → Nat → RSIn
  | terminate : String → RSIn
  | stop : RSIn
deriving DecidableEq, Repr

/-- The server's reaction to one stimulus.  After `stop` the WebSocket
server no longer accepts connections. -/
def rsStep (cfg : RSConfig) (st : RSState) (ev : RSIn) : RSState :=
  match ev with
  | RSIn.connect frame => if st.stopped then st else (handleClient cfg st frame).1
  | RSIn.close cid ref => closeStep st cid ref
  | RSIn.terminate roomId => terminateRoom st roomId
  | RSIn.stop => serverStop st

/-- A run of a `RoomServer`: the state after handling a sequence of
stimuli from startup. -/
def rsRun (cfg : RSConfig) (evs : List RSIn) : RSState :=
  evs.foldl (rsStep cfg) rsInit

/-- The contribution of one room object to the server-wide client count:
the size of its client set while it is in the map, nothing once removed. -/
def roomWeight (r : RoomObj) : Int :=
  if r.inMap then (r.clients.length : Int) else 0

/-- Sum of the sizes of the client sets of all rooms currently held by
the server. -/
def sumClients (st : RSState) : Int :=
  ((st.rooms.filter (fun r => r.inMap)).map
    (fun r => (r.clients.length : Int))).sum

/-! ## Discovery (`discovery.ts`): the fleet mirror.

`_roomServers` is a `Map` from public url to a mutable record; records
hold a mutable object map of mirrored rooms, each with an object map of
mirrored clients.  All modelled as association lists.  Every ingest
handler returns the new state together with the events emitted
(`this.emit(...)`) and the bus requests issued (`this._nats.request`). -/

/-- Embedding of `IClientSummary` (`client.ts`). -/
structure ClientSummaryV where
  id : String
  properties : Option JVal
deriving DecidableEq, Repr

/-- Embedding of `IRoomSummary` (`room.ts`) as mirrored by discovery. -/
structure MirrorRoom where
  id : String
  publicUrl : String
  clients : List ClientSummaryV
  properties : Option JVal
deriving DecidableEq, Repr

/-- Embedding of `IRoomServer` (`room-server.ts`): discovery's record of
one remote room server. -/
structure RSRecord where
  publicUrl : String
  clientCount : Int
  rooms : List MirrorRoom
  lastPing : Nat
deriving DecidableEq, Repr

/-- State of one `Discovery` instance: the room-server map. -/
structure DState where
  records : List RSRecord
deriving DecidableEq, Repr

/-- Events emitted by `Discovery` (`this.emit(...)`), projected to the
identifying payload fields. -/
inductive DEvent where
  | newServer : String → DEvent
  | serverRemoved : String → DEvent
  | newRoom : String → String → DEvent
  | roomRemoved : String → DEvent
  | roomJoined : String → String → DEvent
  | roomLeft : String → String → DEvent
deriving DecidableEq, Repr

/-- A request issued on the bus (`this._nats.request(subject, null,
{max})`). -/
structure BusReq where
  subject : String
  max : Nat
deriving DecidableEq, Repr

/-- Embedding of `IRoomServerPing` (`room-server.ts`).  A missing `reset`
member is falsy, modelled as `false`. -/
structure PingMsg where
  publicUrl : String
  clientCount : Int
  reset : Bool
deriving DecidableEq, Repr

/-- The four `subject` values `RoomServer._notify` publishes on
`rs.event`. -/
inductive RSSubject where
  | newRoom : RSSubject
  | roomRemoved : RSSubject
  | roomJoined : RSSubject
  | roomLeft : RSSubject
deriving DecidableEq, Repr

/-- An `rs.event` bus message as read by `Discovery._handleServerEvent`.
`client` is present on `roomJoined` / `roomLeft` events; a handler that
dereferences a missing `client` throws, which the `_subscribe` wrapper
catches, leaving the mirror unchanged. -/
structure RSEventMsg where
  publicUrl : String
  roomId : String
  subject : RSSubject
  properties : Option JVal
  client : Option ClientSummaryV
deriving DecidableEq, Repr

/-- Lookup of `this._roomServers.get(publicUrl)`. -/
def lookupRecord (records : List RSRecord) (publicUrl : String) :
    Option RSRecord :=
  records.find? (fun r => r.publicUrl == publicUrl)

/-- Lookup of `roomServer.rooms[roomId]`. -/
def lookupMirrorRoom (rooms : List MirrorRoom) (roomId : String) :
    Option MirrorRoom :=
  rooms.find? (fun r => r.id == roomId)

/-- Replace the mirrored room with id `roomId` by `room'` (JS mutation of
the room object held in the record's room map). -/
def putMirrorRoom (rooms : List MirrorRoom) (roomId : String)
    (room' : MirrorRoom) : List MirrorRoom :=
  rooms.map (fun r => if r.id = roomId then room' else r)

/-- Replace the record with url `publicUrl` by `rec'` (JS mutation of the
record object held in the server map). -/
def putRecord (records : List RSRecord) (publicUrl : String)
    (rec' : RSRecord) : List RSRecord :=
  records.map (fun r => if r.publicUrl = publicUrl then rec' else r)

/-- `Discovery._addNewClient` (`discovery.ts`): a no-op when the room
already holds the client id; otherwise insert the client and emit
`roomJoined`. -/
def addNewClient (room : MirrorRoom) (client : ClientSummaryV) :
    MirrorRoom × List DEvent :=
  if (room.clients.find? (fun c => c.id == client.id)).isSome then
    (room, [])
  else
    ({ room with clients := room.clients ++ [client] },
     [DEvent.roomJoined room.id client.id])

/-- `Discovery._removeClient` (`discovery.ts`): a no-op when absent;
otherwise emit `roomLeft`, then delete the client. -/
def removeClient (room : MirrorRoom) (clientId : String) :
    MirrorRoom × List DEvent :=
  match room.clients.find? (fun c => c.id == clientId) with
  | none => (room, [])
  | some _ =>
    ({ room with clients := room.clients.filter (fun c => ¬ c.id == clientId) },
     [DEvent.roomLeft room.id clientId])

/-- `Discovery._addNewRoom` (`discovery.ts`): a no-op when the record
already holds the room id; otherwise insert the room with an emptied
client map, emit `newRoom`, then add the carried clients one by one. -/
def addNewRoom (rec : RSRecord) (room : MirrorRoom) :
    RSRecord × List DEvent :=
  if (rec.rooms.find? (fun r => r.id == room.id)).isSome then
    (rec, [])
  else
    let clients := room.clients
    let room0 : MirrorRoom := { room with clients := [] }
    let seeded := clients.foldl
      (fun (acc : MirrorRoom × List DEvent) c =>
        let next := addNewClient acc.1 c
        (next.1, acc.2 ++ next.2))
      (room0, [])
    ({ rec with rooms := rec.rooms ++ [seeded.1] },
     DEvent.newRoom room.id room.publicUrl :: seeded.2)

/-- `Discovery._removeRoom` (`discovery.ts`): a no-op when absent;
otherwise remove every mirrored client (emitting `roomLeft` for each),
delete the room, and emit `roomRemoved`. -/
def removeRoom (rec : RSRecord) (roomId : String) : RSRecord × List DEvent :=
  match lookupMirrorRoom rec.rooms roomId with
  | none => (rec, [])
  | some room =>
    let cleared := room.clients.foldl
      (fun (acc : MirrorRoom × List DEvent) c =>
        let next := removeClient acc.1 c.id
        (next.1, acc.2 ++ next.2))
      (room, [])
    ({ rec with rooms := rec.rooms.filter (fun r => ¬ r.id == roomId) },
     cleared.2 ++ [DEvent.roomRemoved roomId])

/-- `Discovery._handleServerEvent` (`discovery.ts`): drop events from
unknown servers; `newRoom` inserts a fresh mirrored room; the remaining
subjects are dropped when the room is unknown and otherwise update the
room's client set or remove the room. -/
def handleServerEvent (st : DState) (ev : RSEventMsg) :
    DState × List DEvent :=
  match lookupRecord st.records ev.publicUrl with
  | none => (st, [])
  | some rec =>
    match ev.subject with
    | RSSubject.newRoom =>
      let next := addNewRoom rec
        { id := ev.roomId, publicUrl := ev.publicUrl,
          properties := ev.properties, clients := [] }
      ({ records := putRecord st.records ev.publicUrl next.1 }, next.2)
    | subj =>
      match lookupMirrorRoom rec.rooms ev.roomId with
      | none => (st, [])
      | some room =>
        match subj with
        | RSSubject.newRoom => (st, [])
        | RSSubject.roomRemoved =>
          let next := removeRoom rec room.id
          ({ records := putRecord st.records ev.publicUrl next.1 }, next.2)
        | RSSubject.roomJoined =>
          match ev.client with
          | none => (st, [])
          | some client =>
            let next := addNewClient room client
            ({ records := putRecord st.records ev.publicUrl
                { rec with rooms := putMirrorRoom rec.rooms room.id next.1 } },
             next.2)
        | RSSubject.roomLeft =>
          match ev.client with
          | none => (st, [])
          | some client =>
            let next := removeClient room client.id
            ({ records := putRecord st.records ev.publicUrl
                { rec with rooms := putMirrorRoom rec.rooms room.id next.1 } },
             next.2)

/-- `Discovery._addNewServer` (`discovery.ts`): insert the record, emit
`newServer`, then issue a `rooms.<publicUrl>` request with `max: 1`
(whose single reply is ingested later as a `roomsReply` stimulus). -/
def addNewServer (st : DState) (rec : RSRecord) :
    DState × List DEvent × List BusReq :=
  ({ records := st.records ++ [rec] },
   [DEvent.newServer rec.publicUrl],
   [{ subject := "rooms." ++ rec.publicUrl, max := 1 }])

/-- `Discovery._receiveServerPing` (`discovery.ts`): on `reset`, first
drop the record for that url; then update `clientCount` and `lastPing`
of a known record, or add a new record with an empty room map. -/
def receiveServerPing (st : DState) (ping : PingMsg) (now : Nat) :
    DState × List DEvent × List BusReq :=
  let st0 : DState :=
    if ping.reset then
      { records := st.records.filter (fun r => ¬ r.publicUrl == ping.publicUrl) }
    else st
  match lookupRecord st0.records ping.publicUrl with
  | some rec =>
    ({ records := putRecord st0.records ping.publicUrl
        { rec with clientCount := ping.clientCount, lastPing := now } },
     [], [])
  | none =>
    addNewServer st0
      { publicUrl := ping.publicUrl, clientCount := ping.clientCount,
        rooms := [], lastPing := now }

/-- `Discovery._removeServer` (`discovery.ts`): remove every mirrored
room (with its per-room event cascade), delete the record, and emit
`serverRemoved`. -/
def removeServer (st : DState) (rec : RSRecord) : DState × List DEvent :=
  let cleared := (rec.rooms.map (fun r => r.id)).foldl
    (fun (acc : RSRecord × List DEvent) roomId =>
      let next := removeRoom acc.1 roomId
      (next.1, acc.2 ++ next.2))
    (rec, [])
  ({ records := st.records.filter (fun r => ¬ r.publicUrl == rec.publicUrl) },
   cleared.2 ++ [DEvent.serverRemoved rec.publicUrl])

/-- `Discovery._removeServerByUrl` (`discovery.ts`): remove the record
with that url, if any. -/
def removeServerByUrl (st : DState) (publicUrl : String) :
    DState × List DEvent :=
  match lookupRecord st.records publicUrl with
  | none => (st, [])
  | some rec => removeServer st rec

/-- The reply to a `rooms.<publicUrl>` request: the callback adds each
room of the reply to the requesting record.  (The callback captures the
record object; when the record was dropped between request and reply the
mutations land on a detached object and the mirror is unchanged —
modelled by the absent-record no-op branch.) -/
def roomsReply (st : DState) (publicUrl : String) (rooms : List MirrorRoom) :
    DState × List DEvent :=
  match lookupRecord st.records publicUrl with
  | none => (st, [])
  | some rec =>
    let seeded := rooms.foldl
      (fun (acc : RSRecord × List DEvent) room =>
        let next := addNewRoom acc.1 room
        (next.1, acc.2 ++ next.2))
      (rec, [])
    ({ records := putRecord st.records publicUrl seeded.1 }, seeded.2)

/-- The `serverTimeout` constant of `discovery.ts` (milliseconds). -/
def serverTimeout : Nat := 5000

/-- `Discovery._serverCheckLoop` (`discovery.ts`): evict every record
whose `lastPing + serverTimeout` lies before now. -/
def serverCheckLoop (st : DState) (now : Nat) : DState × List DEvent :=
  st.records.foldl
    (fun (acc : DState × List DEvent) rec =>
      if rec.lastPing + serverTimeout < now then
        let next := removeServerByUrl acc.1 rec.publicUrl
        (next.1, acc.2 ++ next.2)
      else acc)
    (st, [])

/-- One bus stimulus handled by a running `Discovery` instance. -/
inductive DIngest where
  | ping : PingMsg → Nat → DIngest
  | rsEvent : RSEventMsg → DIngest
  | rsStop : String → DIngest
  | roomsReplyMsg : String → List MirrorRoom → DIngest
  | checkTick : Nat → DIngest
deriving Repr

/-- Discovery's reaction to one stimulus. -/
def discoveryStep (st : DState) (ing : DIngest) :
    DState × List DEvent × List BusReq :=
  match ing with
  | DIngest.ping p now => receiveServerPing st p now
  | DIngest.rsEvent ev =>
    let next := handleServerEvent st ev
    (next.1, next.2, [])
  | DIngest.rsStop url =>
    let next := removeServerByUrl st url
    (next.1, next.2, [])
  | DIngest.roomsReplyMsg url rooms =>
    let next := roomsReply st url rooms
    (next.1, next.2, [])
  | DIngest.checkTick now =>
    let next := serverCheckLoop st now
    (next.1, next.2, [])

/-- A run of a `Discovery` instance: the mirror state after ingesting a
sequence of bus stimuli from startup. -/
def discoveryRun (ings : List DIngest) : DState :=
  ings.foldl (fun st ing => (discoveryStep st ing).1) { records := [] }

/-- Well-formedness of one mirrored record: no two rooms share an id and
no mirrored room holds two clients with the same id. -/
def recordWF (rec : RSRecord) : Prop :=
  (rec.rooms.map (fun r => r.id)).Nodup ∧
    ∀ room ∈ rec.rooms, (room.clients.map (fun c => c.id)).Nodup

/-- Well-formedness of the whole mirror. -/
def discoveryWF (st : DState) : Prop :=
  ∀ rec ∈ st.records, recordWF rec

/-- Does the log entry report a `joined` or `left` event of the room
object with identity `ref`? -/
def isJoinLeft (ref : Nat) (e : LogEntry) : Bool :=
  match e with
  | LogEntry.joined r _ => r == ref
  | LogEntry.leftRoom r _ => r == ref
  | LogEntry.terminated _ => false

/-- No `joined` or `left` event of a room object occurs in the log after
that object's `terminated` event. -/
def logOrdered (log : List LogEntry) : Prop :=
  ∀ (i j ref : Nat) (e : LogEntry), i < j →
    log[i]? = some (LogEntry.terminated ref) →
    log[j]? = some e → isJoinLeft ref e = false

/-- The inductive invariant of a `RoomServer` run.  `clientCount` agrees
with both the number of pending close handlers and the total mapped room
membership; every pending handler names a live member of a mapped room and
vice versa; object identities and map keys are unique; a room object that
has emitted `terminated` is out of the map and no close handler still
holds it. -/
structure RSInv (st : RSState) : Prop where
  count_pending : st.clientCount = (st.pending.length : Int)
  count_sum : st.clientCount = (st.rooms.map roomWeight).sum
  pending_mem : ∀ p ∈ st.pending,
    ∃ room ∈ st.rooms, room.ref = p.2 ∧ room.inMap = true ∧ p.1 ∈ room.clients
  mem_pending : ∀ room ∈ st.rooms, ∀ c ∈ room.clients, (c, room.ref) ∈ st.pending
  refs_nodup : (st.rooms.map (fun r => r.ref)).Nodup
  refs_lt : ∀ room ∈ st.rooms, room.ref < st.nextRef
  clients_nodup : ∀ room ∈ st.rooms, room.clients.Nodup
  ids_nodup : ((st.rooms.filter (fun r => r.inMap)).map (fun r => r.id)).Nodup
  pending_nodup : st.pending.Nodup
  retired_inMap : ∀ ref, LogEntry.terminated ref ∈ st.log →
    ∀ room ∈ st.rooms, room.ref = ref → room.inMap = false
  retired_pending : ∀ ref, LogEntry.terminated ref ∈ st.log →
    ∀ p ∈ st.pending, p.2 ≠ ref
  retired_lt : ∀ ref, LogEntry.terminated ref ∈ st.log → ref < st.nextRef
  log_ordered : logOrdered st.log

/-! ## Theorems -/

/-- Helper: a closed client is unaffected by further heartbeat ticks. -/
theorem clientPing_closed (missedLimit : Nat) (c : ClientHB)
    (h : c.closed = true) : clientPing missedLimit c = c := by
  simp [clientPing, h]

/-- Helper: a client that never pongs is closed after enough ticks. -/
theorem clientPing_iterate_closed (missedLimit : Nat) :
    ∀ (n : Nat) (c : ClientHB), missedLimit ≤ c.missedPings + n →
      ((clientPing missedLimit)^[n + 1] c).closed = true := by
  intro n
  induction n with
  | zero =>
    intro c hle
    by_cases hc : c.closed = true
    · simp [Function.iterate_one, clientPing, hc]
    · simp only [Nat.add_zero] at hle
      simp [Function.iterate_one, clientPing, hc, hle]
  | succ n ih =>
    intro c hle
    by_cases hc : c.closed = true
    · have hstable : ∀ m, (clientPing missedLimit)^[m] c = c := by
        intro m
        induction m with
        | zero => rfl
        | succ m ihm =>
          rw [Function.iterate_succ_apply, clientPing_closed _ _ hc, ihm]
      rw [hstable]
      exact hc
    · by_cases hlim : missedLimit ≤ c.missedPings
      · have hclosed : (clientPing missedLimit c).closed = true := by
          simp [clientPing, hc, hlim]
        rw [Function.iterate_succ_apply]
        have hstable : ∀ m (d : ClientHB), d.closed = true →
            ((clientPing missedLimit)^[m] d).closed = true := by
          intro m
          induction m with
          | zero => intro d hd; exact hd
          | succ m ihm =>
            intro d hd
            rw [Function.iterate_succ_apply, clientPing_closed _ _ hd]
            exact ihm d hd
        exact hstable _ _ hclosed
      · push_neg at hlim
        have hstep : clientPing missedLimit c =
            { c with missedPings := c.missedPings + 1,
                     pingsSent := c.pingsSent + 1 } := by
          simp [clientPing, hc, Nat.not_le.mpr hlim]
        rw [Function.iterate_succ_apply, hstep]
        refine ih _ ?_
        show missedLimit ≤ c.missedPings + 1 + n
        omega

/-- C2: `Discovery.generateToken` followed by `jwt.verify` with the same
shared secret and required subject `"joinRoom"` succeeds and recovers the
signed payload (`publicUrl`, `roomId`, `roomProperties`, `clientId`,
`clientProperties`, `joinOnly`) bit-equally. -/
theorem generateToken_verify_roundtrip (secret : String)
    (options : ITokenOptions) :
    jwtVerify (generateToken secret options) secret "joinRoom" =
      Except.ok
        { publicUrl := options.publicUrl
          roomId := options.roomId
          roomProperties := options.roomProperties
          clientId := options.clientId
          clientProperties := options.clientProperties
          joinOnly := options.joinOnly } := by
  unfold generateToken jwtVerify
  rw [if_pos]
  exact ⟨rfl, rfl⟩

/-- C3: on each heartbeat tick `Room._pingClients` calls `Client.ping`
with the room's `missedPingsLimit` on every member; for a live member the
tick terminates the client when `missedPings ≥ missedPingsLimit` and
otherwise increments the counter and sends a ping frame; a pong resets
the counter to 0; hence a live client that never pongs is closed after at
most `missedPingsLimit` consecutive missed intervals (that is, by the
`missedPingsLimit + 1`-st tick). -/
theorem heartbeat_tick_pong_eviction (missedLimit : Nat) (c : ClientHB)
    (clients : List ClientHB) :
    pingClients missedLimit clients = clients.map (clientPing missedLimit) ∧
    (c.closed = false → missedLimit ≤ c.missedPings →
      clientPing missedLimit c = { c with closed := true }) ∧
    (c.closed = false → c.missedPings < missedLimit →
      clientPing missedLimit c =
        { c with missedPings := c.missedPings + 1,
                 pingsSent := c.pingsSent + 1 }) ∧
    (c.closed = false → clientPong c = { c with missedPings := 0 }) ∧
    (c.closed = false →
      ((clientPing missedLimit)^[missedLimit + 1] c).closed = true) := by
  refine ⟨rfl, ?_, ?_, ?_, ?_⟩
  · intro hc hle
    simp [clientPing, hc, hle]
  · intro hc hlt
    simp [clientPing, hc, Nat.not_le.mpr hlt]
  · intro hc
    simp [clientPong, hc]
  · intro hc
    exact clientPing_iterate_closed missedLimit missedLimit c
      (Nat.le_add_left missedLimit c.missedPings)

/-- Witness for C3 at `missedPingsLimit = 2` on a fresh client: the
second tick increments, a pong resets, and three consecutive unanswered
ticks close the client. -/
theorem heartbeat_tick_pong_eviction_witness :
    ((⟨0, false, 0⟩ : ClientHB).closed = false ∧
      (⟨0, false, 0⟩ : ClientHB).missedPings < 2) ∧
    pingClients 2 [⟨0, false, 0⟩] = [⟨1, false, 1⟩] ∧
    clientPing 2 ⟨0, false, 0⟩ = ⟨1, false, 1⟩ ∧
    clientPong ⟨1, false, 1⟩ = ⟨0, false, 1⟩ ∧
    ((clientPing 2)^[3] (⟨0, false, 0⟩ : ClientHB)).closed = true := by
  have h := heartbeat_tick_pong_eviction 2 ⟨0, false, 0⟩ [⟨0, false, 0⟩]
  have h2 := heartbeat_tick_pong_eviction 2 ⟨1, false, 1⟩ ([] : List ClientHB)
  refine ⟨⟨rfl, by decide⟩, by decide, ?_, ?_, ?_⟩
  · simpa using h.2.2.1 rfl (by decide)
  · simpa using h2.2.2.2.1 rfl
  · exact h.2.2.2.2 rfl

/-- C4: a new socket presenting a verified token whose room already holds
a client with the same id is rejected: the server sends the envelope with
message `"You are already connected to this room."` and closes the
socket, and the server state — in particular the room's membership and
size, and `clientCount` — is unchanged. -/
theorem duplicate_client_rejected (cfg : RSConfig) (st : RSState)
    (tk : SignedToken) (room : RoomObj)
    (hsec : tk.secret = cfg.tokenSecret)
    (hsub : tk.subject = "joinRoom")
    (hurl : tk.payload.publicUrl = cfg.publicUrl)
    (hroom : lookupRoom st.rooms tk.payload.roomId = some room)
    (hdup : tk.payload.clientId ∈ room.clients) :
    handleClient cfg st tk =
      (st, HCOut.rejected "Authentication Failed"
        "You are already connected to this room." true) := by
  unfold handleClient authenticate jwtVerify
  rw [if_pos ⟨hsec, hsub⟩]
  simp only [hurl, ne_eq, not_true_eq_false, if_false, ite_false]
  unfold connectClient
  rw [hroom]
  simp only [hdup, if_pos]

/-- Witness for C4: a concrete server holding room `R1` with member `C1`
rejects a second valid token for `(R1, C1)` and is left unchanged. -/
theorem duplicate_client_rejected_witness :
    handleClient ⟨"rs-a", "s", defaultRoomOptions⟩
        ⟨[⟨0, "R1", none, defaultRoomOptions, ["C1"], true⟩], 1, [("C1", 0)],
          1, false, [LogEntry.joined 0 "C1"]⟩
        ⟨⟨"rs-a", "R1", none, "C1", none, none⟩, "s", "joinRoom", "1m"⟩ =
      (⟨[⟨0, "R1", none, defaultRoomOptions, ["C1"], true⟩], 1, [("C1", 0)],
          1, false, [LogEntry.joined 0 "C1"]⟩,
       HCOut.rejected "Authentication Failed"
        "You are already connected to this room." true) :=
  duplicate_client_rejected ⟨"rs-a", "s", defaultRoomOptions⟩
    ⟨[⟨0, "R1", none, defaultRoomOptions, ["C1"], true⟩], 1, [("C1", 0)],
      1, false, [LogEntry.joined 0 "C1"]⟩
    ⟨⟨"rs-a", "R1", none, "C1", none, none⟩, "s", "joinRoom", "1m"⟩
    ⟨0, "R1", none, defaultRoomOptions, ["C1"], true⟩
    rfl rfl rfl (by decide) (by decide)

/-- C5: a new socket presenting an otherwise-valid token whose
`publicUrl` differs from the server's own is rejected with
`{error: "Authentication Failed", message: "The authentication token is
intended for another room server."}`, the socket is closed, and the
server state — in particular `clientCount` and the room set — is
unchanged. -/
theorem wrong_publicUrl_rejected (cfg : RSConfig) (st : RSState)
    (tk : SignedToken)
    (hsec : tk.secret = cfg.tokenSecret)
    (hsub : tk.subject = "joinRoom")
    (hurl : tk.payload.publicUrl ≠ cfg.publicUrl) :
    handleClient cfg st tk =
      (st, HCOut.rejected "Authentication Failed"
        "The authentication token is intended for another room server."
        true) := by
  unfold handleClient authenticate jwtVerify
  rw [if_pos ⟨hsec, hsub⟩]
  simp only [ne_eq, hurl, not_false_eq_true, if_true, ite_true]

/-- Witness for C5: server `rs-a` rejects a token minted for `rs-b`. -/
theorem wrong_publicUrl_rejected_witness :
    handleClient ⟨"rs-a", "s", defaultRoomOptions⟩ rsInit
        ⟨⟨"rs-b", "R1", none, "C1", none, none⟩, "s", "joinRoom", "1m"⟩ =
      (rsInit, HCOut.rejected "Authentication Failed"
        "The authentication token is intended for another room server."
        true) :=
  wrong_publicUrl_rejected ⟨"rs-a", "s", defaultRoomOptions⟩ rsInit
    ⟨⟨"rs-b", "R1", none, "C1", none, none⟩, "s", "joinRoom", "1m"⟩
    rfl rfl (by decide)

/-- C6: a verified token with `joinOnly = true` whose `roomId` names no
existing room is still admitted: the admission path creates the room
(with the token's `roomProperties` and the server-default room options)
and joins the client — the `joinOnly` flag is not enforced. -/
theorem joinOnly_not_enforced (cfg : RSConfig) (st : RSState)
    (tk : SignedToken)
    (hsec : tk.secret = cfg.tokenSecret)
    (hsub : tk.subject = "joinRoom")
    (hurl : tk.payload.publicUrl = cfg.publicUrl)
    (hjoin : tk.payload.joinOnly = some true)
    (habsent : lookupRoom st.rooms tk.payload.roomId = none) :
    handleClient cfg st tk =
      ({ st with
          rooms := st.rooms ++
            [{ ref := st.nextRef, id := tk.payload.roomId,
               properties := tk.payload.roomProperties,
               options := cfg.roomOptions,
               clients := [tk.payload.clientId], inMap := true }]
          clientCount := st.clientCount + 1
          pending := st.pending ++ [(tk.payload.clientId, st.nextRef)]
          nextRef := st.nextRef + 1
          log := st.log ++ [LogEntry.joined st.nextRef tk.payload.clientId] },
       HCOut.admitted tk.payload.roomId tk.payload.clientId) := by
  unfold handleClient authenticate jwtVerify
  rw [if_pos ⟨hsec, hsub⟩]
  simp only [hurl, ne_eq, not_true_eq_false, if_false, ite_false]
  unfold connectClient
  rw [habsent]

/-- Witness for C6: a `joinOnly` token for the unknown room `R9` still
creates `R9` and admits the client on a fresh server. -/
theorem joinOnly_not_enforced_witness :
    handleClient ⟨"rs-a", "s", defaultRoomOptions⟩ rsInit
        ⟨⟨"rs-a", "R9", some (JVal.jStr "props"), "C1", none, some true⟩,
          "s", "joinRoom", "1m"⟩ =
      (⟨[⟨0, "R9", some (JVal.jStr "props"), defaultRoomOptions, ["C1"], true⟩],
        1, [("C1", 0)], 1, false, [LogEntry.joined 0 "C1"]⟩,
       HCOut.admitted "R9" "C1") :=
  joinOnly_not_enforced ⟨"rs-a", "s", defaultRoomOptions⟩ rsInit
    ⟨⟨"rs-a", "R9", some (JVal.jStr "props"), "C1", none, some true⟩,
      "s", "joinRoom", "1m"⟩
    rfl rfl rfl rfl (by decide)

/-- C7: `Discovery._receiveServerPing`: a `reset` ping first deletes the
existing record for that url (and then proceeds as a reset-free ping on
the pruned mirror); a ping for a known record updates its `clientCount`
and stamps `lastPing` to now, with no event and no request; a ping for an
unknown url creates a record with an empty room map, emits `newServer`,
and issues a `rooms.<publicUrl>` request with `max: 1`. -/
theorem receiveServerPing_cases (st : DState) (p : PingMsg) (now : Nat) :
    (p.reset = true →
      receiveServerPing st p now =
        receiveServerPing
          ⟨st.records.filter (fun r => ¬ r.publicUrl == p.publicUrl)⟩
          { p with reset := false } now) ∧
    (p.reset = false → ∀ rec, lookupRecord st.records p.publicUrl = some rec →
      receiveServerPing st p now =
        (⟨putRecord st.records p.publicUrl
            { rec with clientCount := p.clientCount, lastPing := now }⟩,
         [], [])) ∧
    (p.reset = false → lookupRecord st.records p.publicUrl = none →
      receiveServerPing st p now =
        (⟨st.records ++
            [{ publicUrl := p.publicUrl, clientCount := p.clientCount,
               rooms := [], lastPing := now }]⟩,
         [DEvent.newServer p.publicUrl],
         [{ subject := "rooms." ++ p.publicUrl, max := 1 }])) := by
  refine ⟨?_, ?_, ?_⟩
  · intro hreset
    simp only [receiveServerPing, hreset, if_true, ite_true, Bool.false_eq_true,
      if_false, ite_false]
  · intro hreset rec hrec
    simp only [receiveServerPing, hreset, Bool.false_eq_true, if_false,
      ite_false, hrec]
  · intro hreset hrec
    simp only [receiveServerPing, hreset, Bool.false_eq_true, if_false,
      ite_false, hrec, addNewServer]

/-- Witness for C7: on a mirror holding a single record for `rs-a` with
2 clients, a reset ping behaves as a ping on the pruned mirror, a plain
ping updates count and stamp, and a ping for unknown `rs-b` creates a
record, emits `newServer` and issues the `rooms.rs-b` request. -/
theorem receiveServerPing_cases_witness :
    receiveServerPing ⟨[⟨"rs-a", 2, [], 5⟩]⟩ ⟨"rs-a", 3, true⟩ 9 =
        receiveServerPing ⟨[]⟩ ⟨"rs-a", 3, false⟩ 9 ∧
    receiveServerPing ⟨[⟨"rs-a", 2, [], 5⟩]⟩ ⟨"rs-a", 3, false⟩ 9 =
        (⟨[⟨"rs-a", 3, [], 9⟩]⟩, [], []) ∧
    receiveServerPing ⟨[⟨"rs-a", 2, [], 5⟩]⟩ ⟨"rs-b", 0, false⟩ 9 =
        (⟨[⟨"rs-a", 2, [], 5⟩, ⟨"rs-b", 0, [], 9⟩]⟩,
         [DEvent.newServer "rs-b"], [⟨"rooms.rs-b", 1⟩]) := by
  refine ⟨?_, ?_, ?_⟩
  · have h := (receiveServerPing_cases ⟨[⟨"rs-a", 2, [], 5⟩]⟩
      ⟨"rs-a", 3, true⟩ 9).1 rfl
    simpa using h
  · have h := (receiveServerPing_cases ⟨[⟨"rs-a", 2, [], 5⟩]⟩
      ⟨"rs-a", 3, false⟩ 9).2.1 rfl ⟨"rs-a", 2, [], 5⟩ (by decide)
    simpa [putRecord] using h
  · have h := (receiveServerPing_cases ⟨[⟨"rs-a", 2, [], 5⟩]⟩
      ⟨"rs-b", 0, false⟩ 9).2.2 rfl (by decide)
    simpa using h

/-- C8: `Discovery._handleServerEvent` drops any event whose `publicUrl`
names no known server record, creating nothing; and it silently drops any
`roomRemoved` / `roomJoined` / `roomLeft` event (the non-`newRoom`
subjects) naming an unknown room of a known server.  In both cases the
mirror is unchanged and no event is emitted. -/
theorem serverEvent_unknown_dropped (st : DState) (ev : RSEventMsg) :
    (lookupRecord st.records ev.publicUrl = none →
      handleServerEvent st ev = (st, [])) ∧
    (∀ rec, lookupRecord st.records ev.publicUrl = some rec →
      ev.subject ≠ RSSubject.newRoom →
      lookupMirrorRoom rec.rooms ev.roomId = none →
      handleServerEvent st ev = (st, [])) := by
  constructor
  · intro h
    simp only [handleServerEvent, h]
  · intro rec hrec hsubj hroom
    rcases ev with ⟨url, roomId, subject, props, client⟩
    cases subject with
    | newRoom => exact absurd rfl hsubj
    | roomRemoved =>
      simp only [handleServerEvent, hrec] at *
      simp only [hroom]
    | roomJoined =>
      simp only [handleServerEvent, hrec] at *
      simp only [hroom]
    | roomLeft =>
      simp only [handleServerEvent, hrec] at *
      simp only [hroom]

/-- Witness for C8: an event from unknown server `rs-x` is dropped, and a
`roomJoined` event for the unknown room `R2` of known server `rs-a` is
dropped; the mirror is unchanged and no event is emitted either way. -/
theorem serverEvent_unknown_dropped_witness :
    handleServerEvent ⟨[⟨"rs-a", 1, [⟨"R1", "rs-a", [], none⟩], 5⟩]⟩
        ⟨"rs-x", "R1", RSSubject.roomJoined, none, some ⟨"C1", none⟩⟩ =
      (⟨[⟨"rs-a", 1, [⟨"R1", "rs-a", [], none⟩], 5⟩]⟩, []) ∧
    handleServerEvent ⟨[⟨"rs-a", 1, [⟨"R1", "rs-a", [], none⟩], 5⟩]⟩
        ⟨"rs-a", "R2", RSSubject.roomJoined, none, some ⟨"C1", none⟩⟩ =
      (⟨[⟨"rs-a", 1, [⟨"R1", "rs-a", [], none⟩], 5⟩]⟩, []) := by
  constructor
  · exact (serverEvent_unknown_dropped
      ⟨[⟨"rs-a", 1, [⟨"R1", "rs-a", [], none⟩], 5⟩]⟩
      ⟨"rs-x", "R1", RSSubject.roomJoined, none, some ⟨"C1", none⟩⟩).1
      (by decide)
  · exact (serverEvent_unknown_dropped
      ⟨[⟨"rs-a", 1, [⟨"R1", "rs-a", [], none⟩], 5⟩]⟩
      ⟨"rs-a", "R2", RSSubject.roomJoined, none, some ⟨"C1", none⟩⟩).2
      ⟨"rs-a", 1, [⟨"R1", "rs-a", [], none⟩], 5⟩ (by decide)
      (by decide) (by decide)

/-! ### List helpers for the `RoomServer` invariant -/

theorem eraseFirst_length_add_one {α : Type} [DecidableEq α] {l : List α}
    {a : α} (h : a ∈ l) : (eraseFirst l a).length + 1 = l.length := by
  induction l with
  | nil => cases h
  | cons x xs ih =>
    by_cases hx : x = a
    · simp [eraseFirst, hx]
    · rcases List.mem_cons.mp h with h1 | h2
      · exact absurd h1.symm hx
      · simp [eraseFirst, hx, ih h2]

theorem mem_of_mem_eraseFirst {α : Type} [DecidableEq α] {l : List α}
    {a x : α} (h : x ∈ eraseFirst l a) : x ∈ l := by
  induction l with
  | nil => cases h
  | cons y ys ih =>
    by_cases hy : y = a
    · simp only [eraseFirst, hy, if_true, ite_true] at h
      exact List.mem_cons_of_mem _ h
    · simp only [eraseFirst, hy, if_false, ite_false] at h
      rcases List.mem_cons.mp h with h1 | h2
      · exact h1 ▸ List.mem_cons_self _ _
      · exact List.mem_cons_of_mem _ (ih h2)

theorem mem_eraseFirst_of_ne {α : Type} [DecidableEq α] {l : List α}
    {a x : α} (hx : x ∈ l) (hne : x ≠ a) : x ∈ eraseFirst l a := by
  induction l with
  | nil => cases hx
  | cons y ys ih =>
    by_cases hy : y = a
    · simp only [eraseFirst, hy, if_true, ite_true]
      rcases List.mem_cons.mp hx with h1 | h2
      · exact absurd (h1.trans hy) hne
      · exact h2
    · simp only [eraseFirst, hy, if_false, ite_false]
      rcases List.mem_cons.mp hx with h1 | h2
      · exact h1 ▸ List.mem_cons_self _ _
      · exact List.mem_cons_of_mem _ (ih h2)

theorem nodup_eraseFirst {α : Type} [DecidableEq α] {l : List α}
    (h : l.Nodup) (a : α) : (eraseFirst l a).Nodup := by
  induction l with
  | nil => exact h
  | cons y ys ih =>
    rcases List.nodup_cons.mp h with ⟨hy, hys⟩
    by_cases hya : y = a
    · simpa [eraseFirst, hya] using hys
    · simp only [eraseFirst, hya, if_false, ite_false]
      exact List.nodup_cons.mpr
        ⟨fun hmem => hy (mem_of_mem_eraseFirst hmem), ih hys⟩

theorem not_mem_eraseFirst_self {α : Type} [DecidableEq α] {l : List α}
    (h : l.Nodup) (a : α) : a ∉ eraseFirst l a := by
  induction l with
  | nil => simp [eraseFirst]
  | cons y ys ih =>
    rcases List.nodup_cons.mp h with ⟨hy, hys⟩
    by_cases hya : y = a
    · simpa [eraseFirst, hya] using (hya ▸ hy)
    · simp only [eraseFirst, hya, if_false, ite_false, List.mem_cons]
      push_neg
      exact ⟨fun he => hya he.symm, ih hys⟩

theorem eraseFirst_of_not_mem {α : Type} [DecidableEq α] {l : List α}
    {a : α} (h : a ∉ l) : eraseFirst l a = l := by
  induction l with
  | nil => rfl
  | cons y ys ih =>
    simp only [List.mem_cons] at h
    push_neg at h
    have hya : ¬ y = a := fun he => h.1 he.symm
    simp [eraseFirst, hya, ih h.2]

theorem eraseFirst_cons_self {α : Type} [DecidableEq α] (l : List α) (a : α) :
    eraseFirst (a :: l) a = l := by
  simp [eraseFirst]

theorem map_updRoom {rooms : List RoomObj} {ref : Nat} {f : RoomObj → RoomObj}
    {β : Type} (g : RoomObj → β) (hf : ∀ r, g (f r) = g r) :
    (updRoom rooms ref f).map g = rooms.map g := by
  induction rooms with
  | nil => rfl
  | cons x xs ih =>
    simp only [updRoom, List.map_cons] at *
    by_cases hx : x.ref = ref
    · simp [hx, hf, ih]
    · simp [hx, ih]

theorem mem_updRoom_self {rooms : List RoomObj} {ref : Nat}
    {f : RoomObj → RoomObj} {r : RoomObj} (hr : r ∈ rooms) (href : r.ref = ref) :
    f r ∈ updRoom rooms ref f := by
  refine List.mem_map.mpr ⟨r, hr, ?_⟩
  simp [href]

theorem mem_updRoom_other {rooms : List RoomObj} {ref : Nat}
    {f : RoomObj → RoomObj} {r : RoomObj} (hr : r ∈ rooms) (href : r.ref ≠ ref) :
    r ∈ updRoom rooms ref f := by
  refine List.mem_map.mpr ⟨r, hr, ?_⟩
  simp [href]

theorem mem_updRoom_elim {rooms : List RoomObj} {ref : Nat}
    {f : RoomObj → RoomObj} {x : RoomObj} (hx : x ∈ updRoom rooms ref f) :
    ∃ r ∈ rooms, (r.ref = ref ∧ x = f r) ∨ (r.ref ≠ ref ∧ x = r) := by
  rcases List.mem_map.mp hx with ⟨r, hr, heq⟩
  by_cases href : r.ref = ref
  · exact ⟨r, hr, Or.inl ⟨href, by simp [href] at heq; exact heq.symm⟩⟩
  · exact ⟨r, hr, Or.inr ⟨href, by simp [href] at heq; exact heq.symm⟩⟩

theorem rooms_ref_injective {rooms : List RoomObj}
    (hnd : (rooms.map (fun r => r.ref)).Nodup) {a b : RoomObj}
    (ha : a ∈ rooms) (hb : b ∈ rooms) (hab : a.ref = b.ref) : a = b :=
  List.inj_on_of_nodup_map hnd ha hb hab

theorem lookupRoom_some_spec {rooms : List RoomObj} {roomId : String}
    {room : RoomObj} (h : lookupRoom rooms roomId = some room) :
    room ∈ rooms ∧ room.inMap = true ∧ room.id = roomId := by
  have hmem := List.mem_of_find?_eq_some h
  have hpred := List.find?_some h
  simp only [Bool.and_eq_true, beq_iff_eq] at hpred
  exact ⟨hmem, hpred.1, hpred.2⟩

theorem lookupRoom_none_spec {rooms : List RoomObj} {roomId : String}
    (h : lookupRoom rooms roomId = none) :
    ∀ r ∈ rooms, ¬ (r.inMap = true ∧ r.id = roomId) := by
  intro r hr hcontra
  have := List.find?_eq_none.mp h r hr
  simp only [Bool.and_eq_true, beq_iff_eq] at this
  exact this ⟨hcontra.1, hcontra.2⟩

theorem findByRef_some_spec {rooms : List RoomObj} {ref : Nat}
    {room : RoomObj} (h : rooms.find? (fun r => r.ref == ref) = some room) :
    room ∈ rooms ∧ room.ref = ref := by
  have hmem := List.mem_of_find?_eq_some h
  have hpred := List.find?_some h
  simp only [beq_iff_eq] at hpred
  exact ⟨hmem, hpred⟩

theorem findByRef_of_mem {rooms : List RoomObj}
    (hnd : (rooms.map (fun r => r.ref)).Nodup) {room : RoomObj}
    (hmem : room ∈ rooms) :
    rooms.find? (fun r => r.ref == room.ref) = some room := by
  induction rooms with
  | nil => cases hmem
  | cons x xs ih =>
    simp only [List.map_cons, List.nodup_cons] at hnd
    obtain ⟨hx, hxs⟩ := hnd
    rcases List.mem_cons.mp hmem with h1 | h2
    · rw [List.find?_cons_of_pos _ (by simp [h1])]
      rw [h1]
    · have hne : (x.ref == room.ref) = false := by
        simp only [beq_eq_false_iff_ne, ne_eq]
        intro he
        exact hx (he ▸ List.mem_map_of_mem (fun r => r.ref) h2)
      rw [List.find?_cons_of_neg _ (by simp [hne])]
      exact ih hxs h2

theorem updRoom_of_no_match {rooms : List RoomObj} {ref : Nat}
    {f : RoomObj → RoomObj} (h : ∀ r ∈ rooms, r.ref ≠ ref) :
    updRoom rooms ref f = rooms := by
  induction rooms with
  | nil => rfl
  | cons x xs ih =>
    simp only [updRoom, List.map_cons]
    rw [if_neg (h x (List.mem_cons_self _ _))]
    have := ih (fun r hr => h r (List.mem_cons_of_mem _ hr))
    simpa [updRoom] using this

theorem map_map_pointwise {l : List RoomObj} {g : RoomObj → RoomObj}
    {β : Type} (k : RoomObj → β) (hg : ∀ r, k (g r) = k r) :
    (l.map g).map k = l.map k := by
  rw [List.map_map]
  exact List.map_congr_left (fun r _ => hg r)

theorem sum_map_congr_mem {l : List RoomObj} {g g' : RoomObj → Int}
    (h : ∀ r ∈ l, g r = g' r) : (l.map g).sum = (l.map g').sum := by
  rw [List.map_congr_left h]

theorem sum_weight_filter (rooms : List RoomObj) :
    ((rooms.filter (fun r => r.inMap)).map
        (fun r => (r.clients.length : Int))).sum =
      (rooms.map roomWeight).sum := by
  induction rooms with
  | nil => rfl
  | cons x xs ih =>
    by_cases hx : x.inMap
    · simp [List.filter_cons, hx, roomWeight, ih]
    · simp [List.filter_cons, hx, roomWeight, ih]

theorem sum_weight_updRoom {rooms : List RoomObj} {ref : Nat}
    {f : RoomObj → RoomObj} {room : RoomObj}
    (hnd : (rooms.map (fun r => r.ref)).Nodup)
    (hmem : room ∈ rooms) (href : room.ref = ref) :
    ((updRoom rooms ref f).map roomWeight).sum =
      (rooms.map roomWeight).sum + (roomWeight (f room) - roomWeight room) := by
  induction rooms with
  | nil => cases hmem
  | cons x xs ih =>
    simp only [List.map_cons, List.nodup_cons] at hnd
    obtain ⟨hx, hxs⟩ := hnd
    rcases List.mem_cons.mp hmem with h1 | h2
    · subst h1
      simp only [updRoom, List.map_cons, if_pos href, List.sum_cons]
      have hno : ∀ r ∈ xs, r.ref ≠ ref := by
        intro r hr he
        apply hx
        rw [href]
        exact List.mem_map.mpr ⟨r, hr, he⟩
      have hupd := updRoom_of_no_match (f := f) hno
      simp only [updRoom] at hupd
      rw [hupd]
      ring
    · have hxref : x.ref ≠ ref := by
        intro he
        exact hx (List.mem_map.mpr ⟨room, h2, href.trans he.symm⟩)
      simp only [updRoom, List.map_cons, if_neg hxref, List.sum_cons]
      have hih := ih hxs h2
      simp only [updRoom] at hih
      rw [hih]
      ring

theorem filteredIds_map_pointwise {rooms : List RoomObj}
    {g : RoomObj → RoomObj}
    (hg : ∀ r, (g r).inMap = r.inMap ∧ (g r).id = r.id) :
    ((rooms.map g).filter (fun r => r.inMap)).map (fun r => r.id) =
      ((rooms.filter (fun r => r.inMap)).map (fun r => r.id)) := by
  induction rooms with
  | nil => rfl
  | cons x xs ih =>
    simp only [List.map_cons, List.filter_cons]
    by_cases hx : x.inMap
    · rw [if_pos (by simpa [(hg x).1] using hx), if_pos (by simpa using hx)]
      simp [List.map_cons, (hg x).2, ih]
    · rw [if_neg (by simpa [(hg x).1] using hx), if_neg (by simpa using hx)]
      exact ih

theorem filteredIds_flip_sublist {rooms : List RoomObj}
    {g : RoomObj → RoomObj}
    (hg : ∀ r, g r = r ∨ ((g r).inMap = false)) :
    List.Sublist
      (((rooms.map g).filter (fun r => r.inMap)).map (fun r => r.id))
      ((rooms.filter (fun r => r.inMap)).map (fun r => r.id)) := by
  induction rooms with
  | nil => simp
  | cons x xs ih =>
    simp only [List.map_cons, List.filter_cons]
    rcases hg x with h1 | h2
    · rw [h1]
      by_cases hx : x.inMap
      · rw [if_pos (by simpa using hx), if_pos (by simpa using hx)]
        simpa using List.Sublist.cons₂ x.id ih
      · rw [if_neg (by simpa using hx), if_neg (by simpa using hx)]
        exact ih
    · rw [if_neg (by simp [h2])]
      by_cases hx : x.inMap
      · rw [if_pos (by simpa using hx)]
        exact List.Sublist.trans ih (List.sublist_cons_self _ _)
      · rw [if_neg (by simpa using hx)]
        exact ih

theorem logOrdered_append_one {log : List LogEntry} {e : LogEntry}
    (h : logOrdered log)
    (hnew : ∀ ref, LogEntry.terminated ref ∈ log → isJoinLeft ref e = false) :
    logOrdered (log ++ [e]) := by
  intro i j ref e' hij hi hj
  have hjlen : j < log.length + 1 := by
    have := List.getElem?_eq_some.mp hj
    simpa using this.1
  by_cases hjlt : j < log.length
  · have hilt : i < log.length := Nat.lt_trans hij hjlt
    rw [List.getElem?_append_left hilt] at hi
    rw [List.getElem?_append_left hjlt] at hj
    exact h i j ref e' hij hi hj
  · have hje : j = log.length := by omega
    have hilt : i < log.length := by omega
    rw [List.getElem?_append_left hilt] at hi
    rw [List.getElem?_append_right (by omega)] at hj
    have : e' = e := by
      rw [hje] at hj
      simpa using hj.symm
    subst this
    exact hnew ref (List.getElem?_mem hi)

theorem logOrdered_append_of_ter {log : List LogEntry} {ref0 : Nat}
    (h : logOrdered log) :
    logOrdered (log ++ [LogEntry.terminated ref0]) := by
  refine logOrdered_append_one h ?_
  intro ref _
  rfl

theorem nodup_append_singleton {α : Type} {l : List α} {a : α}
    (ha : a ∉ l) (hl : l.Nodup) : (l ++ [a]).Nodup := by
  rw [List.nodup_append_comm]
  exact List.nodup_cons.mpr ⟨ha, hl⟩

theorem rsInv_init : RSInv rsInit := by
  constructor <;> simp [rsInit, logOrdered]

theorem removeRoomById_fields (st : RSState) (rid : String) :
    (removeRoomById st rid).clientCount = st.clientCount ∧
    (removeRoomById st rid).pending = st.pending ∧
    (removeRoomById st rid).nextRef = st.nextRef ∧
    (removeRoomById st rid).stopped = st.stopped ∧
    (removeRoomById st rid).log = st.log := by
  simp [removeRoomById]

theorem rsInv_removeRoomById {st : RSState} {rid : String}
    (inv : RSInv st)
    (hempty : ∀ room ∈ st.rooms, room.inMap = true → room.id = rid →
      room.clients = []) :
    RSInv (removeRoomById st rid) := by
  set g : RoomObj → RoomObj := fun r =>
    if r.inMap ∧ r.id = rid then { r with inMap := false } else r with hg
  have hgref : ∀ r, (g r).ref = r.ref := by
    intro r
    by_cases hc : r.inMap ∧ r.id = rid <;> simp [hg, hc]
  have hgid : ∀ r, (g r).id = r.id := by
    intro r
    by_cases hc : r.inMap ∧ r.id = rid <;> simp [hg, hc]
  have hgclients : ∀ r, (g r).clients = r.clients := by
    intro r
    by_cases hc : r.inMap ∧ r.id = rid <;> simp [hg, hc]
  have hgflip : ∀ r, g r = r ∨ ((g r).inMap = false) := by
    intro r
    by_cases hc : r.inMap ∧ r.id = rid
    · exact Or.inr (by simp [hg, hc])
    · exact Or.inl (by simp [hg, hc])
  have hrooms : (removeRoomById st rid).rooms = st.rooms.map g := by
    simp [removeRoomById, hg]
  constructor
  · rw [(removeRoomById_fields st rid).1, (removeRoomById_fields st rid).2.1]
    exact inv.count_pending
  · rw [(removeRoomById_fields st rid).1, hrooms, List.map_map]
    refine (inv.count_sum).trans (sum_map_congr_mem ?_).symm
    intro r hr
    show roomWeight (g r) = roomWeight r
    by_cases hc : r.inMap ∧ r.id = rid
    · have hcl : r.clients = [] := hempty r hr hc.1 hc.2
      simp [hg, hc, roomWeight, hcl]
    · simp [hg, hc]
  · rw [(removeRoomById_fields st rid).2.1, hrooms]
    intro p hp
    obtain ⟨room, hmem, href, hin, hcl⟩ := inv.pending_mem p hp
    have hnc : ¬ (room.inMap = true ∧ room.id = rid) := by
      rintro ⟨h1, h2⟩
      rw [hempty room hmem h1 h2] at hcl
      cases hcl
    have : g room = room := by
      simp only [hg]
      rw [if_neg (by simpa [hin] using fun h2 => hnc ⟨hin, h2⟩)]
    exact ⟨g room, List.mem_map_of_mem g hmem,
      by rw [this]; exact ⟨href, hin, hcl⟩⟩
  · rw [(removeRoomById_fields st rid).2.1, hrooms]
    intro room' hroom' c hc
    obtain ⟨r, hr, heq⟩ := List.mem_map.mp hroom'
    subst heq
    rw [hgclients r] at hc
    rw [hgref r]
    exact inv.mem_pending r hr c hc
  · rw [hrooms, map_map_pointwise _ hgref]
    exact inv.refs_nodup
  · rw [hrooms, (removeRoomById_fields st rid).2.2.1]
    intro room' hroom'
    obtain ⟨r, hr, heq⟩ := List.mem_map.mp hroom'
    subst heq
    rw [hgref r]
    exact inv.refs_lt r hr
  · rw [hrooms]
    intro room' hroom'
    obtain ⟨r, hr, heq⟩ := List.mem_map.mp hroom'
    subst heq
    rw [hgclients r]
    exact inv.clients_nodup r hr
  · rw [hrooms]
    exact (filteredIds_flip_sublist hgflip).nodup inv.ids_nodup
  · rw [(removeRoomById_fields st rid).2.1]
    exact inv.pending_nodup
  · rw [(removeRoomById_fields st rid).2.2.2.2, hrooms]
    intro ref0 hter room' hroom' href'
    obtain ⟨r, hr, heq⟩ := List.mem_map.mp hroom'
    subst heq
    rw [hgref r] at href'
    have hold := inv.retired_inMap ref0 hter r hr href'
    rcases hgflip r with h1 | h2
    · rw [h1]; exact hold
    · exact h2
  · rw [(removeRoomById_fields st rid).2.2.2.2,
      (removeRoomById_fields st rid).2.1]
    exact inv.retired_pending
  · rw [(removeRoomById_fields st rid).2.2.2.2,
      (removeRoomById_fields st rid).2.2.1]
    exact inv.retired_lt
  · rw [(removeRoomById_fields st rid).2.2.2.2]
    exact inv.log_ordered

theorem rsInv_admit_existing {st : RSState} {room : RoomObj}
    {rid cid : String} (inv : RSInv st)
    (hroom : lookupRoom st.rooms rid = some room)
    (hnew : cid ∉ room.clients) :
    RSInv { st with
      rooms := updRoom st.rooms room.ref
        (fun r => { r with clients := r.clients ++ [cid] })
      clientCount := st.clientCount + 1
      pending := st.pending ++ [(cid, room.ref)]
      log := st.log ++ [LogEntry.joined room.ref cid] } := by
  obtain ⟨hmem, hin, hid⟩ := lookupRoom_some_spec hroom
  set f : RoomObj → RoomObj :=
    fun r => { r with clients := r.clients ++ [cid] } with hfdef
  have hnotter : ∀ ref0, LogEntry.terminated ref0 ∈ st.log →
      room.ref ≠ ref0 := by
    intro ref0 hter he
    subst he
    exact absurd (inv.retired_inMap room.ref hter room hmem rfl)
      (by simp [hin])
  have hpendnotmem : (cid, room.ref) ∉ st.pending := by
    intro hcon
    obtain ⟨rp, hrpmem, hrpref, _, hrpcl⟩ := inv.pending_mem _ hcon
    have : rp = room := rooms_ref_injective inv.refs_nodup hrpmem hmem hrpref
    subst this
    exact hnew hrpcl
  constructor
  · show st.clientCount + 1 = _
    simp only [List.length_append, List.length_singleton]
    push_cast
    rw [inv.count_pending]
  · show st.clientCount + 1 = _
    rw [sum_weight_updRoom inv.refs_nodup hmem rfl]
    have h1 : roomWeight (f room) = (room.clients.length : Int) + 1 := by
      simp only [hfdef, roomWeight, hin, if_true, ite_true,
        List.length_append, List.length_singleton]
      push_cast
      ring
    have h2 : roomWeight room = (room.clients.length : Int) := by
      simp [roomWeight, hin]
    rw [h1, h2, ← inv.count_sum]
    ring
  · intro p hp
    rcases List.mem_append.mp hp with hpold | hpnew
    · obtain ⟨rp, hrpmem, hrpref, hrpin, hrpcl⟩ := inv.pending_mem p hpold
      by_cases he : rp.ref = room.ref
      · have hrp : rp = room := rooms_ref_injective inv.refs_nodup hrpmem hmem he
        subst hrp
        refine ⟨f rp, mem_updRoom_self hrpmem rfl, ?_, ?_, ?_⟩
        · simpa [hfdef] using hrpref
        · simpa [hfdef] using hrpin
        · exact List.mem_append_left _ hrpcl
      · exact ⟨rp, mem_updRoom_other hrpmem he, hrpref, hrpin, hrpcl⟩
    · have hpeq : p = (cid, room.ref) := by simpa using hpnew
      subst hpeq
      refine ⟨f room, mem_updRoom_self hmem rfl, ?_, ?_, ?_⟩
      · simp [hfdef]
      · simpa [hfdef] using hin
      · simp [hfdef]
  · intro room' hroom' c hc
    obtain ⟨r, hr, hcase⟩ := mem_updRoom_elim hroom'
    rcases hcase with ⟨he, heq⟩ | ⟨hne, heq⟩
    · subst heq
      have hrroom : r = room := rooms_ref_injective inv.refs_nodup hr hmem he
      subst hrroom
      simp only [hfdef] at hc
      rcases List.mem_append.mp hc with h1 | h2
      · refine List.mem_append_left _ ?_
        simpa [hfdef] using inv.mem_pending r hr c h1
      · have : c = cid := by simpa using h2
        subst this
        refine List.mem_append_right _ ?_
        simp [hfdef]
    · rw [heq] at hc ⊢
      exact List.mem_append_left _ (inv.mem_pending r hr c hc)
  · show ((updRoom st.rooms room.ref f).map (fun r => r.ref)).Nodup
    rw [map_updRoom (f := f) (fun r => r.ref) (fun r => rfl)]
    exact inv.refs_nodup
  · intro room' hroom'
    obtain ⟨r, hr, hcase⟩ := mem_updRoom_elim hroom'
    rcases hcase with ⟨_, heq⟩ | ⟨_, heq⟩ <;> rw [heq]
    · exact inv.refs_lt r hr
    · exact inv.refs_lt r hr
  · intro room' hroom'
    obtain ⟨r, hr, hcase⟩ := mem_updRoom_elim hroom'
    rcases hcase with ⟨he, heq⟩ | ⟨_, heq⟩ <;> rw [heq]
    · have hrroom : r = room := rooms_ref_injective inv.refs_nodup hr hmem he
      rw [hrroom]
      exact nodup_append_singleton hnew (inv.clients_nodup room hmem)
    · exact inv.clients_nodup r hr
  · show (((updRoom st.rooms room.ref f).filter (fun r => r.inMap)).map
      (fun r => r.id)).Nodup
    have hup : updRoom st.rooms room.ref f =
        st.rooms.map (fun r => if r.ref = room.ref then f r else r) := rfl
    rw [hup, filteredIds_map_pointwise ?hg]
    case hg =>
      intro r
      by_cases hc : r.ref = room.ref <;> simp [hc, hfdef]
    exact inv.ids_nodup
  · exact nodup_append_singleton hpendnotmem inv.pending_nodup
  · intro ref0 hter room' hroom' href'
    have hter0 : LogEntry.terminated ref0 ∈ st.log := by
      rcases List.mem_append.mp hter with h1 | h2
      · exact h1
      · simp at h2
    obtain ⟨r, hr, hcase⟩ := mem_updRoom_elim hroom'
    rcases hcase with ⟨_, heq⟩ | ⟨_, heq⟩ <;> rw [heq] at href' ⊢
    · exact inv.retired_inMap ref0 hter0 r hr href'
    · exact inv.retired_inMap ref0 hter0 r hr href'
  · intro ref0 hter p hp
    have hter0 : LogEntry.terminated ref0 ∈ st.log := by
      rcases List.mem_append.mp hter with h1 | h2
      · exact h1
      · simp at h2
    rcases List.mem_append.mp hp with h1 | h2
    · exact inv.retired_pending ref0 hter0 p h1
    · have : p = (cid, room.ref) := by simpa using h2
      subst this
      exact fun he => hnotter ref0 hter0 he
  · intro ref0 hter
    have hter0 : LogEntry.terminated ref0 ∈ st.log := by
      rcases List.mem_append.mp hter with h1 | h2
      · exact h1
      · simp at h2
    exact inv.retired_lt ref0 hter0
  · refine logOrdered_append_one inv.log_ordered ?_
    intro ref0 hter0
    show (room.ref == ref0) = false
    simpa using hnotter ref0 hter0

theorem rsInv_admit_create {st : RSState} {rid cid : String}
    {props : Option JVal} {opts : RoomOptionsV} (inv : RSInv st)
    (habsent : lookupRoom st.rooms rid = none) :
    RSInv { st with
      rooms := st.rooms ++
        [{ ref := st.nextRef, id := rid, properties := props,
           options := opts, clients := [cid], inMap := true }]
      clientCount := st.clientCount + 1
      pending := st.pending ++ [(cid, st.nextRef)]
      nextRef := st.nextRef + 1
      log := st.log ++ [LogEntry.joined st.nextRef cid] } := by
  set newRoom : RoomObj :=
    { ref := st.nextRef, id := rid, properties := props,
      options := opts, clients := [cid], inMap := true } with hnrdef
  have hfreshref : st.nextRef ∉ st.rooms.map (fun r => r.ref) := by
    intro hcon
    obtain ⟨r, hr, he⟩ := List.mem_map.mp hcon
    exact absurd (inv.refs_lt r hr) (by rw [he]; exact lt_irrefl _)
  have hfreshpend : (cid, st.nextRef) ∉ st.pending := by
    intro hcon
    obtain ⟨rp, hrpmem, hrpref, _, _⟩ := inv.pending_mem _ hcon
    exact absurd (inv.refs_lt rp hrpmem) (by rw [hrpref]; exact lt_irrefl _)
  have hterlt : ∀ ref0, LogEntry.terminated ref0 ∈ st.log →
      st.nextRef ≠ ref0 := by
    intro ref0 hter he
    exact absurd (inv.retired_lt ref0 hter) (by rw [← he]; exact lt_irrefl _)
  constructor
  · show st.clientCount + 1 = _
    simp only [List.length_append, List.length_singleton]
    push_cast
    rw [inv.count_pending]
  · show st.clientCount + 1 = _
    simp only [List.map_append, List.sum_append, List.map_cons, List.map_nil,
      List.sum_cons, List.sum_nil]
    have hw : roomWeight newRoom = 1 := by simp [roomWeight, hnrdef]
    rw [hw, ← inv.count_sum]
    ring
  · intro p hp
    rcases List.mem_append.mp hp with hpold | hpnew
    · obtain ⟨rp, hrpmem, hrpref, hrpin, hrpcl⟩ := inv.pending_mem p hpold
      exact ⟨rp, List.mem_append_left _ hrpmem, hrpref, hrpin, hrpcl⟩
    · have hpeq : p = (cid, st.nextRef) := by simpa using hpnew
      subst hpeq
      refine ⟨newRoom, List.mem_append_right _ (by simp), ?_, ?_, ?_⟩
      · simp [hnrdef]
      · simp [hnrdef]
      · simp [hnrdef]
  · intro room' hroom' c hc
    rcases List.mem_append.mp hroom' with h1 | h2
    · exact List.mem_append_left _ (inv.mem_pending room' h1 c hc)
    · have : room' = newRoom := by simpa using h2
      subst this
      have : c = cid := by simpa [hnrdef] using hc
      subst this
      refine List.mem_append_right _ ?_
      simp [hnrdef]
  · simp only [List.map_append, List.map_cons, List.map_nil]
    exact nodup_append_singleton (by simpa [hnrdef] using hfreshref)
      inv.refs_nodup
  · intro room' hroom'
    rcases List.mem_append.mp hroom' with h1 | h2
    · exact Nat.lt_trans (inv.refs_lt room' h1) (Nat.lt_succ_self _)
    · have : room' = newRoom := by simpa using h2
      subst this
      simp [hnrdef, Nat.lt_succ_self]
  · intro room' hroom'
    rcases List.mem_append.mp hroom' with h1 | h2
    · exact inv.clients_nodup room' h1
    · have : room' = newRoom := by simpa using h2
      subst this
      simp [hnrdef]
  · have hfilter : (st.rooms ++ [newRoom]).filter (fun r => r.inMap) =
        st.rooms.filter (fun r => r.inMap) ++ [newRoom] := by
      rw [List.filter_append]
      simp [hnrdef]
    rw [hfilter, List.map_append, List.map_cons, List.map_nil]
    refine nodup_append_singleton ?_ inv.ids_nodup
    intro hcon
    obtain ⟨r, hr, he⟩ := List.mem_map.mp hcon
    have hrr := List.mem_filter.mp hr
    exact lookupRoom_none_spec habsent r hrr.1
      ⟨by simpa using hrr.2, by simpa [hnrdef] using he⟩
  · exact nodup_append_singleton hfreshpend inv.pending_nodup
  · intro ref0 hter room' hroom' href'
    have hter0 : LogEntry.terminated ref0 ∈ st.log := by
      rcases List.mem_append.mp hter with h1 | h2
      · exact h1
      · simp at h2
    rcases List.mem_append.mp hroom' with h1 | h2
    · exact inv.retired_inMap ref0 hter0 room' h1 href'
    · have : room' = newRoom := by simpa using h2
      subst this
      exact absurd href' (by simpa [hnrdef] using hterlt ref0 hter0)
  · intro ref0 hter p hp
    have hter0 : LogEntry.terminated ref0 ∈ st.log := by
      rcases List.mem_append.mp hter with h1 | h2
      · exact h1
      · simp at h2
    rcases List.mem_append.mp hp with h1 | h2
    · exact inv.retired_pending ref0 hter0 p h1
    · have : p = (cid, st.nextRef) := by simpa using h2
      subst this
      exact hterlt ref0 hter0
  · intro ref0 hter
    have hter0 : LogEntry.terminated ref0 ∈ st.log := by
      rcases List.mem_append.mp hter with h1 | h2
      · exact h1
      · simp at h2
    exact Nat.lt_trans (inv.retired_lt ref0 hter0) (Nat.lt_succ_self _)
  · refine logOrdered_append_one inv.log_ordered ?_
    intro ref0 hter0
    show (st.nextRef == ref0) = false
    simpa using hterlt ref0 hter0

theorem rsInv_handleClient {cfg : RSConfig} {st : RSState}
    {frame : SignedToken} (inv : RSInv st) :
    RSInv (handleClient cfg st frame).1 := by
  unfold handleClient
  rcases hauth : authenticate cfg frame with msg | tok
  · exact inv
  · show RSInv (connectClient cfg st tok).1
    unfold connectClient
    split
    case h_1 room hroom =>
      split
      case isTrue => exact inv
      case isFalse hdup => exact rsInv_admit_existing inv hroom hdup
    case h_2 hroom => exact rsInv_admit_create inv hroom

theorem rooms_id_injective_inMap {rooms : List RoomObj}
    (hnd : ((rooms.filter (fun r => r.inMap)).map (fun r => r.id)).Nodup)
    {a b : RoomObj} (ha : a ∈ rooms) (hb : b ∈ rooms)
    (hain : a.inMap = true) (hbin : b.inMap = true) (hab : a.id = b.id) :
    a = b :=
  List.inj_on_of_nodup_map hnd
    (List.mem_filter.mpr ⟨ha, by simpa using hain⟩)
    (List.mem_filter.mpr ⟨hb, by simpa using hbin⟩) hab

theorem rsInv_disconnect {st : RSState} {cid : String} {ref : Nat}
    (inv : RSInv st) (hpend : (cid, ref) ∈ st.pending) :
    RSInv (disconnectClient st cid ref) := by
  obtain ⟨room, hmem, href0, hin, hcl0⟩ := inv.pending_mem _ hpend
  have href : room.ref = ref := href0
  have hcl : cid ∈ room.clients := hcl0
  have hfind : st.rooms.find? (fun r => r.ref == ref) = some room := by
    rw [← href]
    exact findByRef_of_mem inv.refs_nodup hmem
  have hnotter : ∀ ref0, LogEntry.terminated ref0 ∈ st.log → ref ≠ ref0 := by
    intro ref0 hter he
    rw [← he] at hter
    exact absurd (inv.retired_inMap ref hter room hmem href) (by simp [hin])
  set f : RoomObj → RoomObj :=
    fun r => { r with clients := eraseFirst r.clients cid } with hfdef
  set st1 : RSState :=
    { st with
      rooms := updRoom st.rooms ref f
      pending := eraseFirst st.pending (cid, ref)
      clientCount := st.clientCount - 1
      log := st.log ++ [LogEntry.leftRoom ref cid] } with hst1def
  have hinv1 : RSInv st1 := by
    constructor
    · show st.clientCount - 1 = _
      have hlen := eraseFirst_length_add_one hpend
      rw [inv.count_pending, ← hlen]
      push_cast
      ring
    · show st.clientCount - 1 = ((updRoom st.rooms ref f).map roomWeight).sum
      rw [sum_weight_updRoom inv.refs_nodup hmem href]
      have h1 : roomWeight (f room) =
          ((eraseFirst room.clients cid).length : Int) := by
        simp [hfdef, roomWeight, hin]
      have h2 : roomWeight room = (room.clients.length : Int) := by
        simp [roomWeight, hin]
      have h3 := eraseFirst_length_add_one hcl
      have h4 : (room.clients.length : Int) =
          ((eraseFirst room.clients cid).length : Int) + 1 := by
        exact_mod_cast h3.symm
      rw [h1, h2, ← inv.count_sum, h4]
      ring
    · intro p hp
      have hpmem : p ∈ st.pending := mem_of_mem_eraseFirst hp
      have hpne : p ≠ (cid, ref) := by
        intro he
        subst he
        exact not_mem_eraseFirst_self inv.pending_nodup _ hp
      obtain ⟨rp, hrpmem, hrpref, hrpin, hrpcl⟩ := inv.pending_mem p hpmem
      by_cases he : rp.ref = ref
      · have hrp : rp = room :=
          rooms_ref_injective inv.refs_nodup hrpmem hmem (he.trans href.symm)
        subst hrp
        refine ⟨f rp, mem_updRoom_self hrpmem he, ?_, ?_, ?_⟩
        · simpa [hfdef] using hrpref
        · simpa [hfdef] using hrpin
        · have hne1 : p.1 ≠ cid := by
            intro he1
            apply hpne
            have : p = (p.1, p.2) := rfl
            rw [this, he1, ← hrpref, he]
          show p.1 ∈ eraseFirst rp.clients cid
          exact mem_eraseFirst_of_ne hrpcl hne1
      · exact ⟨rp, mem_updRoom_other hrpmem he, hrpref, hrpin, hrpcl⟩
    · intro room' hroom' c hc
      obtain ⟨r, hr, hcase⟩ := mem_updRoom_elim hroom'
      rcases hcase with ⟨he, heq⟩ | ⟨hne, heq⟩
      · rw [heq] at hc ⊢
        have hcr : c ∈ r.clients := mem_of_mem_eraseFirst hc
        have hcne : c ≠ cid := by
          intro hee
          subst hee
          exact not_mem_eraseFirst_self (inv.clients_nodup r hr) _ hc
        have hold := inv.mem_pending r hr c hcr
        show (c, r.ref) ∈ eraseFirst st.pending (cid, ref)
        refine mem_eraseFirst_of_ne hold ?_
        intro hee
        exact hcne (congrArg Prod.fst hee)
      · rw [heq] at hc ⊢
        have hold := inv.mem_pending r hr c hc
        refine mem_eraseFirst_of_ne hold ?_
        intro hee
        exact hne (congrArg Prod.snd hee)
    · show ((updRoom st.rooms ref f).map (fun r => r.ref)).Nodup
      rw [map_updRoom (f := f) (fun r => r.ref) (fun r => rfl)]
      exact inv.refs_nodup
    · intro room' hroom'
      obtain ⟨r, hr, hcase⟩ := mem_updRoom_elim hroom'
      rcases hcase with ⟨_, heq⟩ | ⟨_, heq⟩ <;> rw [heq]
      · exact inv.refs_lt r hr
      · exact inv.refs_lt r hr
    · intro room' hroom'
      obtain ⟨r, hr, hcase⟩ := mem_updRoom_elim hroom'
      rcases hcase with ⟨_, heq⟩ | ⟨_, heq⟩ <;> rw [heq]
      · exact nodup_eraseFirst (inv.clients_nodup r hr) cid
      · exact inv.clients_nodup r hr
    · show (((updRoom st.rooms ref f).filter (fun r => r.inMap)).map
        (fun r => r.id)).Nodup
      have hup : updRoom st.rooms ref f =
          st.rooms.map (fun r => if r.ref = ref then f r else r) := rfl
      rw [hup, filteredIds_map_pointwise ?hg]
      case hg =>
        intro r
        by_cases hc : r.ref = ref <;> simp [hc, hfdef]
      exact inv.ids_nodup
    · exact nodup_eraseFirst inv.pending_nodup _
    · intro ref0 hter room' hroom' href'
      have hter0 : LogEntry.terminated ref0 ∈ st.log := by
        rcases List.mem_append.mp hter with h1 | h2
        · exact h1
        · simp at h2
      obtain ⟨r, hr, hcase⟩ := mem_updRoom_elim hroom'
      rcases hcase with ⟨_, heq⟩ | ⟨_, heq⟩ <;> rw [heq] at href' ⊢
      · exact inv.retired_inMap ref0 hter0 r hr href'
      · exact inv.retired_inMap ref0 hter0 r hr href'
    · intro ref0 hter p hp
      have hter0 : LogEntry.terminated ref0 ∈ st.log := by
        rcases List.mem_append.mp hter with h1 | h2
        · exact h1
        · simp at h2
      exact inv.retired_pending ref0 hter0 p (mem_of_mem_eraseFirst hp)
    · intro ref0 hter
      have hter0 : LogEntry.terminated ref0 ∈ st.log := by
        rcases List.mem_append.mp hter with h1 | h2
        · exact h1
        · simp at h2
      exact inv.retired_lt ref0 hter0
    · refine logOrdered_append_one inv.log_ordered ?_
      intro ref0 hter0
      show (ref == ref0) = false
      simpa using hnotter ref0 hter0
  have heq : disconnectClient st cid ref =
      (if (eraseFirst room.clients cid).isEmpty ∧ ¬ room.options.keepAlive
       then removeRoomById st1 room.id else st1) := by
    simp only [disconnectClient, hfind, if_pos hcl, hst1def, hfdef]
  rw [heq]
  by_cases hrem : (eraseFirst room.clients cid).isEmpty ∧
      ¬ room.options.keepAlive
  · rw [if_pos hrem]
    have herased : (eraseFirst room.clients cid) = [] :=
      List.isEmpty_iff.mp hrem.1
    have hfroommem : f room ∈ st1.rooms := by
      show f room ∈ updRoom st.rooms ref f
      exact mem_updRoom_self hmem href
    refine rsInv_removeRoomById hinv1 ?_
    intro r' hr' hin' hid'
    have hfin : (f room).inMap = true := by simpa [hfdef] using hin
    have hfid : (f room).id = room.id := by simp [hfdef]
    have : r' = f room :=
      rooms_id_injective_inMap hinv1.ids_nodup hr' hfroommem hin' hfin
        (hid'.trans hfid.symm)
    rw [this, hfdef]
    exact herased
  · rw [if_neg hrem]
    exact hinv1

theorem rsInv_closeStep {st : RSState} (cid : String) (ref : Nat)
    (inv : RSInv st) : RSInv (closeStep st cid ref) := by
  unfold closeStep
  by_cases h : (cid, ref) ∈ st.pending
  · rw [if_pos h]
    exact rsInv_disconnect inv h
  · rw [if_neg h]
    exact inv

theorem rsInv_stop {st : RSState} (inv : RSInv st) : RSInv (serverStop st) := by
  unfold serverStop
  by_cases h1 : st.stopped
  · rw [if_pos h1]
    exact inv
  · rw [if_neg h1]
    by_cases h2 : st.pending = []
    · rw [if_pos h2]
      have hallempty : ∀ r ∈ st.rooms, r.clients = [] := by
        intro r hr
        cases hc : r.clients with
        | nil => rfl
        | cons c cs =>
          have hmm := inv.mem_pending r hr c (by rw [hc]; exact List.mem_cons_self _ _)
          rw [h2] at hmm
          cases hmm
      have hcount0 : st.clientCount = 0 := by
        rw [inv.count_pending, h2]
        rfl
      constructor
      · show st.clientCount = (st.pending.length : Int)
        exact inv.count_pending
      · show st.clientCount = _
        rw [hcount0]
        refine (List.sum_eq_zero ?_).symm
        intro x hx
        obtain ⟨r', hr', he⟩ := List.mem_map.mp hx
        obtain ⟨r, hr, he2⟩ := List.mem_map.mp hr'
        rw [← he, ← he2]
        simp [roomWeight]
      · intro p hp
        rw [show ({ st with
            rooms := st.rooms.map (fun r => { r with inMap := false }),
            stopped := true } : RSState).pending = st.pending from rfl, h2] at hp
        cases hp
      · intro room' hroom' c hc
        obtain ⟨r, hr, he⟩ := List.mem_map.mp hroom'
        rw [← he] at hc
        have : c ∈ r.clients := hc
        rw [hallempty r hr] at this
        cases this
      · show ((st.rooms.map (fun r => { r with inMap := false })).map
          (fun r => r.ref)).Nodup
        rw [map_map_pointwise (g := fun r => { r with inMap := false })
          (fun r => r.ref) (fun r => rfl)]
        exact inv.refs_nodup
      · intro room' hroom'
        obtain ⟨r, hr, he⟩ := List.mem_map.mp hroom'
        rw [← he]
        exact inv.refs_lt r hr
      · intro room' hroom'
        obtain ⟨r, hr, he⟩ := List.mem_map.mp hroom'
        rw [← he]
        exact inv.clients_nodup r hr
      · show (((st.rooms.map (fun r => { r with inMap := false })).filter
          (fun r => r.inMap)).map (fun r => r.id)).Nodup
        exact (filteredIds_flip_sublist (g := fun r => { r with inMap := false })
          (fun r => Or.inr rfl)).nodup inv.ids_nodup
      · exact inv.pending_nodup
      · intro ref0 _ room' hroom' _
        obtain ⟨r, _, he⟩ := List.mem_map.mp hroom'
        rw [← he]
      · intro ref0 hter p hp
        exact inv.retired_pending ref0 hter p hp
      · intro ref0 hter
        exact inv.retired_lt ref0 hter
      · exact inv.log_ordered
    · rw [if_neg h2]
      exact inv

theorem findByRef_map {rooms : List RoomObj} {ref : Nat} {room : RoomObj}
    {g : RoomObj → RoomObj}
    (hnd : (rooms.map (fun r => r.ref)).Nodup)
    (hg : ∀ r, (g r).ref = r.ref)
    (hfind : rooms.find? (fun r => r.ref == ref) = some room) :
    (rooms.map g).find? (fun r => r.ref == ref) = some (g room) := by
  obtain ⟨hmem, href⟩ := findByRef_some_spec hfind
  have hnd2 : ((rooms.map g).map (fun r => r.ref)).Nodup := by
    rw [map_map_pointwise (fun r => r.ref) hg]
    exact hnd
  have := findByRef_of_mem hnd2 (List.mem_map_of_mem g hmem)
  rw [hg room, href] at this
  exact this

theorem removeRoomById_log_comm (st : RSState) (rid : String)
    (L : List LogEntry) :
    removeRoomById { st with log := L } rid =
      { removeRoomById st rid with log := L } := by
  simp [removeRoomById]

theorem rsInv_term_append {st1 : RSState} {ref : Nat} (inv1 : RSInv st1)
    (hnopend : ∀ p ∈ st1.pending, p.2 ≠ ref)
    (hnoinmap : ∀ r ∈ st1.rooms, r.ref = ref → r.inMap = false)
    (hlt : ref < st1.nextRef) :
    RSInv { st1 with log := st1.log ++ [LogEntry.terminated ref] } := by
  have hterm : ∀ ref0, LogEntry.terminated ref0 ∈
      st1.log ++ [LogEntry.terminated ref] →
      LogEntry.terminated ref0 ∈ st1.log ∨ ref0 = ref := by
    intro ref0 hmm
    rcases List.mem_append.mp hmm with h1 | h2
    · exact Or.inl h1
    · right
      have : LogEntry.terminated ref0 = LogEntry.terminated ref := by
        simpa using h2
      injection this
  constructor
  · exact inv1.count_pending
  · exact inv1.count_sum
  · exact inv1.pending_mem
  · exact inv1.mem_pending
  · exact inv1.refs_nodup
  · exact inv1.refs_lt
  · exact inv1.clients_nodup
  · exact inv1.ids_nodup
  · exact inv1.pending_nodup
  · intro ref0 hter room' hroom' href'
    rcases hterm ref0 hter with h1 | h2
    · exact inv1.retired_inMap ref0 h1 room' hroom' href'
    · exact hnoinmap room' hroom' (href'.trans h2)
  · intro ref0 hter p hp
    rcases hterm ref0 hter with h1 | h2
    · exact inv1.retired_pending ref0 h1 p hp
    · rw [h2]
      exact hnopend p hp
  · intro ref0 hter
    rcases hterm ref0 hter with h1 | h2
    · exact inv1.retired_lt ref0 h1
    · rw [h2]
      exact hlt
  · exact logOrdered_append_of_ter inv1.log_ordered

theorem disconnect_step_spec {st : RSState} {room : RoomObj} {ref : Nat}
    {c : String} {rest : List String}
    (inv : RSInv st)
    (hfind : st.rooms.find? (fun r => r.ref == ref) = some room)
    (hcl : room.clients = c :: rest) :
    RSInv (closeStep st c ref) ∧
    (∃ room', (closeStep st c ref).rooms.find? (fun r => r.ref == ref) =
        some room' ∧ room'.clients = rest ∧ room'.id = room.id) ∧
    (closeStep st c ref).nextRef = st.nextRef := by
  obtain ⟨hmem, href⟩ := findByRef_some_spec hfind
  have hcmem : c ∈ room.clients := by
    rw [hcl]
    exact List.mem_cons_self _ _
  have hpend : (c, ref) ∈ st.pending := by
    have hmm := inv.mem_pending room hmem c hcmem
    rwa [href] at hmm
  have hclose : closeStep st c ref = disconnectClient st c ref := by
    unfold closeStep
    rw [if_pos hpend]
  set f : RoomObj → RoomObj :=
    fun r => { r with clients := eraseFirst r.clients c } with hfdef
  set st1 : RSState :=
    { st with
      rooms := updRoom st.rooms ref f
      pending := eraseFirst st.pending (c, ref)
      clientCount := st.clientCount - 1
      log := st.log ++ [LogEntry.leftRoom ref c] } with hst1def
  have heq : disconnectClient st c ref =
      (if (eraseFirst room.clients c).isEmpty ∧ ¬ room.options.keepAlive
       then removeRoomById st1 room.id else st1) := by
    simp only [disconnectClient, hfind, if_pos hcmem, hst1def, hfdef]
  have herase : eraseFirst room.clients c = rest := by
    rw [hcl]
    exact eraseFirst_cons_self rest c
  have hg : ∀ r : RoomObj,
      ((if r.ref = ref then f r else r) : RoomObj).ref = r.ref := by
    intro r
    by_cases hr : r.ref = ref <;> simp [hr, hfdef]
  have hfind1 : st1.rooms.find? (fun r => r.ref == ref) = some (f room) := by
    show (updRoom st.rooms ref f).find? (fun r => r.ref == ref) = _
    have hmap := findByRef_map (g := fun r => if r.ref = ref then f r else r)
      inv.refs_nodup hg hfind
    simpa [updRoom, href] using hmap
  have hfcl : (f room).clients = rest := by
    simp [hfdef, herase]
  have hfid : (f room).id = room.id := by simp [hfdef]
  have hnd1 : (st1.rooms.map (fun r => r.ref)).Nodup := by
    show ((updRoom st.rooms ref f).map (fun r => r.ref)).Nodup
    rw [map_updRoom (f := f) (fun r => r.ref) (fun r => rfl)]
    exact inv.refs_nodup
  refine ⟨?_, ?_, ?_⟩
  · rw [hclose]
    exact rsInv_disconnect inv hpend
  · rw [hclose, heq]
    by_cases hrem : (eraseFirst room.clients c).isEmpty ∧
        ¬ room.options.keepAlive
    · rw [if_pos hrem]
      set g2 : RoomObj → RoomObj := fun r =>
        if r.inMap ∧ r.id = room.id then { r with inMap := false } else r
        with hg2def
      have hg2ref : ∀ r : RoomObj, (g2 r).ref = r.ref := by
        intro r
        by_cases hr : r.inMap ∧ r.id = room.id <;> simp [hg2def, hr]
      have hfind2 : ((removeRoomById st1 room.id).rooms).find?
          (fun r => r.ref == ref) = some (g2 (f room)) := by
        show ((st1.rooms.map g2).find? (fun r => r.ref == ref)) = _
        exact findByRef_map hnd1 hg2ref hfind1
      have hg2cl : ∀ r : RoomObj, (g2 r).clients = r.clients := by
        intro r
        by_cases hr : r.inMap = true ∧ r.id = room.id <;> simp [hg2def, hr]
      have hg2id : ∀ r : RoomObj, (g2 r).id = r.id := by
        intro r
        by_cases hr : r.inMap = true ∧ r.id = room.id <;> simp [hg2def, hr]
      refine ⟨g2 (f room), hfind2, ?_, ?_⟩
      · rw [hg2cl, hfcl]
      · rw [hg2id, hfid]
    · rw [if_neg hrem]
      exact ⟨f room, hfind1, hfcl, hfid⟩
  · rw [hclose, heq]
    by_cases hrem : (eraseFirst room.clients c).isEmpty ∧
        ¬ room.options.keepAlive
    · rw [if_pos hrem]
      rfl
    · rw [if_neg hrem]

theorem cascade_spec : ∀ (cs : List String) (st : RSState) (ref : Nat)
    (room : RoomObj), RSInv st →
    st.rooms.find? (fun r => r.ref == ref) = some room →
    room.clients = cs →
    RSInv (cs.foldl (fun acc c => closeStep acc c ref) st) ∧
    (∃ room', (cs.foldl (fun acc c => closeStep acc c ref) st).rooms.find?
        (fun r => r.ref == ref) = some room' ∧
      room'.clients = [] ∧ room'.id = room.id) ∧
    (cs.foldl (fun acc c => closeStep acc c ref) st).nextRef = st.nextRef := by
  intro cs
  induction cs with
  | nil =>
    intro st ref room inv hfind hcl
    exact ⟨inv, ⟨room, hfind, hcl, rfl⟩, rfl⟩
  | cons c rest ih =>
    intro st ref room inv hfind hcl
    obtain ⟨inv1, ⟨room1, hfind1, hcl1, hid1⟩, hnext1⟩ :=
      disconnect_step_spec inv hfind hcl
    obtain ⟨inv2, ⟨room2, hfind2, hcl2, hid2⟩, hnext2⟩ :=
      ih (closeStep st c ref) ref room1 inv1 hfind1 hcl1
    exact ⟨inv2, ⟨room2, hfind2, hcl2, hid2.trans hid1⟩, hnext2.trans hnext1⟩

theorem rsInv_terminate {st : RSState} (roomId : String) (inv : RSInv st) :
    RSInv (terminateRoom st roomId) := by
  rcases hroom : lookupRoom st.rooms roomId with _ | room
  · unfold terminateRoom
    rw [hroom]
    exact inv
  · obtain ⟨hmem, hin, hid⟩ := lookupRoom_some_spec hroom
    have hfind0 : st.rooms.find? (fun r => r.ref == room.ref) = some room :=
      findByRef_of_mem inv.refs_nodup hmem
    obtain ⟨inv1, ⟨room1, hfind1, hcl1, hid1⟩, hnext1⟩ :=
      cascade_spec room.clients st room.ref room inv hfind0 rfl
    set F : RSState :=
      room.clients.foldl (fun acc c => closeStep acc c room.ref) st with hF
    obtain ⟨hmem1, href1⟩ := findByRef_some_spec hfind1
    have hnopend : ∀ p ∈ F.pending, p.2 ≠ room.ref := by
      intro p hp he
      obtain ⟨rp, hrpmem, hrpref, _, hrpcl⟩ := inv1.pending_mem p hp
      have hrp : rp = room1 := rooms_ref_injective inv1.refs_nodup hrpmem
        hmem1 (hrpref.trans (he.trans href1.symm))
      rw [hrp, hcl1] at hrpcl
      cases hrpcl
    have hlt : room.ref < F.nextRef := by
      rw [hnext1]
      exact inv.refs_lt room hmem
    have hterm : terminateRoom st roomId =
        (match F.rooms.find? (fun r => r.ref == room.ref) with
         | some r =>
           if r.inMap then
             removeRoomById
               { F with log := F.log ++ [LogEntry.terminated room.ref] }
               room.id
           else { F with log := F.log ++ [LogEntry.terminated room.ref] }
         | none => { F with log := F.log ++ [LogEntry.terminated room.ref] }) := by
      unfold terminateRoom
      rw [hroom]
    rw [hterm, hfind1]
    show RSInv (if room1.inMap = true then
        removeRoomById
          { F with log := F.log ++ [LogEntry.terminated room.ref] } room.id
      else { F with log := F.log ++ [LogEntry.terminated room.ref] })
    by_cases hin1 : room1.inMap = true
    · rw [if_pos hin1]
      rw [removeRoomById_log_comm]
      have hempty : ∀ r' ∈ F.rooms, r'.inMap = true → r'.id = room.id →
          r'.clients = [] := by
        intro r' hr' hin' hid'
        have : r' = room1 := rooms_id_injective_inMap inv1.ids_nodup hr'
          hmem1 hin' hin1 (hid'.trans hid1.symm)
        rw [this]
        exact hcl1
      have invR := rsInv_removeRoomById inv1 hempty
      have hnoinmap : ∀ r' ∈ (removeRoomById F room.id).rooms,
          r'.ref = room.ref → r'.inMap = false := by
        intro r' hr' href'
        obtain ⟨rp, hrpmem, heq⟩ := List.mem_map.mp hr'
        have hrpref : rp.ref = room.ref := by
          rw [← href', ← heq]
          by_cases hc : rp.inMap = true ∧ rp.id = room.id <;> simp [hc]
        have hrp : rp = room1 := rooms_ref_injective inv1.refs_nodup hrpmem
          hmem1 (hrpref.trans href1.symm)
        rw [← heq, hrp]
        rw [if_pos ⟨hin1, hid1⟩]
      have hnopendR : ∀ p ∈ (removeRoomById F room.id).pending,
          p.2 ≠ room.ref := by
        intro p hp
        exact hnopend p hp
      have hltR : room.ref < (removeRoomById F room.id).nextRef := hlt
      exact rsInv_term_append invR hnopendR hnoinmap hltR
    · rw [if_neg hin1]
      have hnoinmap : ∀ r' ∈ F.rooms, r'.ref = room.ref →
          r'.inMap = false := by
        intro r' hr' href'
        have : r' = room1 := rooms_ref_injective inv1.refs_nodup hr' hmem1
          (href'.trans href1.symm)
        rw [this]
        simpa using hin1
      exact rsInv_term_append inv1 hnopend hnoinmap hlt

theorem rsInv_step {cfg : RSConfig} {st : RSState} (ev : RSIn)
    (inv : RSInv st) : RSInv (rsStep cfg st ev) := by
  cases ev with
  | connect frame =>
    show RSInv (if st.stopped = true then st
      else (handleClient cfg st frame).1)
    by_cases h : st.stopped = true
    · rw [if_pos h]
      exact inv
    · rw [if_neg h]
      exact rsInv_handleClient inv
  | close cid ref => exact rsInv_closeStep cid ref inv
  | terminate roomId => exact rsInv_terminate roomId inv
  | stop => exact rsInv_stop inv

theorem rsInv_run (cfg : RSConfig) (evs : List RSIn) :
    RSInv (rsRun cfg evs) := by
  have haux : ∀ (l : List RSIn) (st : RSState), RSInv st →
      RSInv (l.foldl (rsStep cfg) st) := by
    intro l
    induction l with
    | nil => intro st inv; exact inv
    | cons e es ih =>
      intro st inv
      exact ih (rsStep cfg st e) (rsInv_step e inv)
  exact haux evs rsInit rsInv_init

/-- C1: in every run of a `RoomServer` — in particular after every
admitted join and after every socket close handled by the server, and
across the room removal performed on shutdown — the server's
`clientCount` equals the sum of the sizes of the client sets of all its
rooms. -/
theorem clientCount_eq_sum_rooms (cfg : RSConfig) (evs : List RSIn) :
    (rsRun cfg evs).clientCount = sumClients (rsRun cfg evs) := by
  unfold sumClients
  rw [sum_weight_filter]
  exact (rsInv_run cfg evs).count_sum

/-- Counterexample to C9 as stated over the bare `Room` class: a `Room`
object sets no flag in `terminate()` and keeps accepting `join` calls, so
calling `terminate()` and then `join` on a fresh room emits `joined`
after `terminated` (the log below lists emissions in order). -/
theorem room_join_after_terminate_cex :
    roomRun [RoomCall.terminate, RoomCall.join "C1"] =
      { clients := ["C1"],
        log := [RoomEv.terminated, RoomEv.joined "C1"] } := by
  decide

/-- C9 (amended): in every `RoomServer`-driven run — where rooms are
joined, closed, terminated and torn down only through the server's
handlers — once a room object has emitted `terminated`, no further
`joined` or `left` event of that room object appears later in the
emission log.  (The `Room` class itself does not enforce this: see the
counterexample on the standalone room.) -/
theorem no_joined_left_after_terminated (cfg : RSConfig) (evs : List RSIn)
    (i j ref : Nat) (e : LogEntry) (hij : i < j)
    (hi : (rsRun cfg evs).log[i]? = some (LogEntry.terminated ref))
    (hj : (rsRun cfg evs).log[j]? = some e) :
    isJoinLeft ref e = false :=
  (rsInv_run cfg evs).log_ordered i j ref e hij hi hj

/-- Witness for the amended C9: a run that admits a client, terminates
the room, and then admits a client into a recreated room; the recreated
room's `joined` entry follows the old room's `terminated` entry but
carries the new object's identity. -/
theorem no_joined_left_after_terminated_witness :
    (rsRun ⟨"rs-a", "s", defaultRoomOptions⟩
        [RSIn.connect ⟨⟨"rs-a", "R1", none, "C1", none, none⟩,
          "s", "joinRoom", "1m"⟩,
         RSIn.terminate "R1",
         RSIn.connect ⟨⟨"rs-a", "R1", none, "C1", none, none⟩,
          "s", "joinRoom", "1m"⟩]).log[2]? =
      some (LogEntry.terminated 0) ∧
    (rsRun ⟨"rs-a", "s", defaultRoomOptions⟩
        [RSIn.connect ⟨⟨"rs-a", "R1", none, "C1", none, none⟩,
          "s", "joinRoom", "1m"⟩,
         RSIn.terminate "R1",
         RSIn.connect ⟨⟨"rs-a", "R1", none, "C1", none, none⟩,
          "s", "joinRoom", "1m"⟩]).log[3]? =
      some (LogEntry.joined 1 "C1") ∧
    isJoinLeft 0 (LogEntry.joined 1 "C1") = false :=
  ⟨by decide, by decide,
   no_joined_left_after_terminated ⟨"rs-a", "s", defaultRoomOptions⟩
     [RSIn.connect ⟨⟨"rs-a", "R1", none, "C1", none, none⟩,
       "s", "joinRoom", "1m"⟩,
      RSIn.terminate "R1",
      RSIn.connect ⟨⟨"rs-a", "R1", none, "C1", none, none⟩,
       "s", "joinRoom", "1m"⟩]
     2 3 0 (LogEntry.joined 1 "C1") (by decide) (by decide) (by decide)⟩

/-! ### Discovery mirror well-formedness -/

theorem addNewClient_id ( room : MirrorRoom) (client : ClientSummaryV) :
    (addNewClient room client).1.id = room.id := by
  unfold addNewClient
  by_cases h : ((room.clients.find? (fun c => c.id == client.id)).isSome) <;>
    simp [h]

theorem addNewClient_nodup {room : MirrorRoom} (client : ClientSummaryV)
    (h : (room.clients.map (fun c => c.id)).Nodup) :
    ((addNewClient room client).1.clients.map (fun c => c.id)).Nodup := by
  unfold addNewClient
  by_cases hf : ((room.clients.find? (fun c => c.id == client.id)).isSome)
  · simpa [hf] using h
  · simp only [hf, Bool.false_eq_true, if_false, ite_false, List.map_append,
      List.map_cons, List.map_nil]
    refine nodup_append_singleton ?_ h
    intro hcon
    obtain ⟨c0, hc0, he⟩ := List.mem_map.mp hcon
    apply hf
    exact List.find?_isSome.mpr ⟨c0, hc0, by simpa using he⟩

theorem foldl_addNewClient_id (cs : List ClientSummaryV)
    (acc : MirrorRoom × List DEvent) :
    (cs.foldl (fun acc c =>
      let next := addNewClient acc.1 c
      (next.1, acc.2 ++ next.2)) acc).1.id = acc.1.id := by
  induction cs generalizing acc with
  | nil => rfl
  | cons c rest ih =>
    rw [List.foldl_cons, ih]
    exact addNewClient_id acc.1 c

theorem foldl_addNewClient_nodup (cs : List ClientSummaryV)
    (acc : MirrorRoom × List DEvent)
    (h : (acc.1.clients.map (fun c => c.id)).Nodup) :
    ((cs.foldl (fun acc c =>
      let next := addNewClient acc.1 c
      (next.1, acc.2 ++ next.2)) acc).1.clients.map
        (fun c => c.id)).Nodup := by
  induction cs generalizing acc with
  | nil => exact h
  | cons c rest ih =>
    rw [List.foldl_cons]
    exact ih _ (addNewClient_nodup c h)

theorem addNewRoom_recordWF {rec : RSRecord} (room : MirrorRoom)
    (h : recordWF rec) : recordWF (addNewRoom rec room).1 := by
  unfold addNewRoom
  by_cases hf : ((rec.rooms.find? (fun r => r.id == room.id)).isSome)
  · simpa [hf] using h
  · simp only [hf, Bool.false_eq_true, if_false, ite_false]
    constructor
    · simp only [List.map_append, List.map_cons, List.map_nil]
      refine nodup_append_singleton ?_ h.1
      rw [foldl_addNewClient_id]
      intro hcon
      obtain ⟨r0, hr0, he⟩ := List.mem_map.mp hcon
      apply hf
      exact List.find?_isSome.mpr ⟨r0, hr0, by simpa using he⟩
    · intro room' hroom'
      rcases List.mem_append.mp hroom' with h1 | h2
      · exact h.2 room' h1
      · have : room' = (room.clients.foldl (fun acc c =>
            let next := addNewClient acc.1 c
            (next.1, acc.2 ++ next.2))
            ({ room with clients := [] }, [])).1 := by
          simpa using h2
        rw [this]
        exact foldl_addNewClient_nodup _ _ (by simp)

theorem removeRoom_recordWF {rec : RSRecord} (roomId : String)
    (h : recordWF rec) : recordWF (removeRoom rec roomId).1 := by
  unfold removeRoom
  rcases hl : lookupMirrorRoom rec.rooms roomId with _ | room
  · exact h
  · constructor
    · have hs : List.Sublist
          ((rec.rooms.filter (fun r => ¬ r.id == roomId)).map (fun r => r.id))
          (rec.rooms.map (fun r => r.id)) :=
        List.Sublist.map _ (List.filter_sublist _)
      exact hs.nodup h.1
    · intro room' hroom'
      exact h.2 room' (List.mem_of_mem_filter hroom')

theorem removeClient_roomWF {room : MirrorRoom} (clientId : String)
    (h : (room.clients.map (fun c => c.id)).Nodup) :
    (((removeClient room clientId).1.clients).map (fun c => c.id)).Nodup ∧
    (removeClient room clientId).1.id = room.id := by
  unfold removeClient
  rcases hf : room.clients.find? (fun c => c.id == clientId) with _ | c0
  · rw [hf]
    exact ⟨h, rfl⟩
  · rw [hf]
    constructor
    · have hs : List.Sublist
          ((room.clients.filter (fun c => ¬ c.id == clientId)).map
            (fun c => c.id))
          (room.clients.map (fun c => c.id)) :=
        List.Sublist.map _ (List.filter_sublist _)
      exact hs.nodup h
    · rfl

theorem putRecord_discoveryWF {records : List RSRecord} {url : String}
    {rec' : RSRecord} (h : ∀ rec ∈ records, recordWF rec)
    (h' : recordWF rec') : ∀ rec ∈ putRecord records url rec', recordWF rec := by
  intro rec hrec
  obtain ⟨r0, hr0, he⟩ := List.mem_map.mp hrec
  by_cases hc : r0.publicUrl = url
  · rw [← he, if_pos hc]
    exact h'
  · rw [← he, if_neg hc]
    exact h r0 hr0

theorem putMirrorRoom_recordWF {rec : RSRecord} {rid : String}
    {room' : MirrorRoom} (h : recordWF rec) (hid : room'.id = rid)
    (hwf : (room'.clients.map (fun c => c.id)).Nodup) :
    recordWF { rec with rooms := putMirrorRoom rec.rooms rid room' } := by
  constructor
  · show ((rec.rooms.map (fun r => if r.id = rid then room' else r)).map
      (fun r => r.id)).Nodup
    have : (rec.rooms.map (fun r => if r.id = rid then room' else r)).map
        (fun r => r.id) = rec.rooms.map (fun r => r.id) := by
      rw [List.map_map]
      refine List.map_congr_left ?_
      intro r _
      show (if r.id = rid then room' else r).id = r.id
      by_cases hc : r.id = rid
      · rw [if_pos hc, hid, hc]
      · rw [if_neg hc]
    rw [this]
    exact h.1
  · intro room0 hroom0
    obtain ⟨r0, hr0, he⟩ := List.mem_map.mp hroom0
    by_cases hc : r0.id = rid
    · rw [← he, if_pos hc]
      exact hwf
    · rw [← he, if_neg hc]
      exact h.2 r0 hr0

theorem handleServerEvent_WF {st : DState} (ev : RSEventMsg)
    (h : discoveryWF st) : discoveryWF (handleServerEvent st ev).1 := by
  unfold handleServerEvent
  split
  · exact h
  case h_2 rec hrec =>
    have hrecWF : recordWF rec := h rec (List.mem_of_find?_eq_some hrec)
    split
    · exact putRecord_discoveryWF h (addNewRoom_recordWF _ hrecWF)
    case h_2 subj hsubj =>
      split
      · exact h
      case h_2 room hroomf =>
        have hroommem : room ∈ rec.rooms := List.mem_of_find?_eq_some hroomf
        have hroomWF : (room.clients.map (fun c => c.id)).Nodup :=
          hrecWF.2 room hroommem
        split
        · exact h
        · exact putRecord_discoveryWF h (removeRoom_recordWF _ hrecWF)
        · split
          · exact h
          case h_2 client hclient =>
            exact putRecord_discoveryWF h
              (putMirrorRoom_recordWF hrecWF (addNewClient_id room client)
                (addNewClient_nodup client hroomWF))
        · split
          · exact h
          case h_2 client hclient =>
            exact putRecord_discoveryWF h
              (putMirrorRoom_recordWF hrecWF
                ((removeClient_roomWF client.id hroomWF).2)
                ((removeClient_roomWF client.id hroomWF).1))

theorem receiveServerPing_reset_eq (st : DState) (p : PingMsg) (now : Nat)
    (hr : p.reset = true) :
    receiveServerPing st p now =
      receiveServerPing
        ⟨st.records.filter (fun r => ¬ r.publicUrl == p.publicUrl)⟩
        { p with reset := false } now := by
  simp only [receiveServerPing, hr, if_true, ite_true, Bool.false_eq_true,
    if_false, ite_false]

theorem receivePing_noreset_WF (st : DState) (p : PingMsg)
    (hp : p.reset = false) (now : Nat) (h : discoveryWF st) :
    discoveryWF (receiveServerPing st p now).1 := by
  unfold receiveServerPing
  simp only [hp, Bool.false_eq_true, if_false, ite_false]
  split
  case h_1 rec hrec =>
    exact putRecord_discoveryWF h (h rec (List.mem_of_find?_eq_some hrec))
  case h_2 hrec =>
    intro r hrm
    rcases List.mem_append.mp hrm with h1 | h2
    · exact h r h1
    · have hre : r = (⟨p.publicUrl, p.clientCount, [], now⟩ : RSRecord) := by
        simpa using h2
      rw [hre]
      exact ⟨List.nodup_nil, by intro room hroom; cases hroom⟩

theorem receiveServerPing_WF (st : DState) (p : PingMsg) (now : Nat)
    (h : discoveryWF st) : discoveryWF (receiveServerPing st p now).1 := by
  by_cases hr : p.reset = true
  · rw [receiveServerPing_reset_eq st p now hr]
    refine receivePing_noreset_WF _ _ rfl now ?_
    intro rec hrec
    exact h rec (List.mem_of_mem_filter hrec)
  · exact receivePing_noreset_WF st p (by simpa using hr) now h

theorem removeServer_WF {st : DState} (rec : RSRecord)
    (h : discoveryWF st) : discoveryWF (removeServer st rec).1 := by
  intro r hr
  exact h r (List.mem_of_mem_filter hr)

theorem removeServerByUrl_WF {st : DState} (url : String)
    (h : discoveryWF st) : discoveryWF (removeServerByUrl st url).1 := by
  unfold removeServerByUrl
  split
  · exact h
  · exact removeServer_WF _ h

theorem foldl_addNewRoom_recordWF (rooms : List MirrorRoom)
    (acc : RSRecord × List DEvent) (h : recordWF acc.1) :
    recordWF (rooms.foldl (fun acc room =>
      let next := addNewRoom acc.1 room
      (next.1, acc.2 ++ next.2)) acc).1 := by
  induction rooms generalizing acc with
  | nil => exact h
  | cons room rest ih =>
    rw [List.foldl_cons]
    exact ih _ (addNewRoom_recordWF room h)

theorem roomsReply_WF (st : DState) (url : String) (rooms : List MirrorRoom)
    (h : discoveryWF st) : discoveryWF (roomsReply st url rooms).1 := by
  unfold roomsReply
  split
  · exact h
  case h_2 rec hrec =>
    exact putRecord_discoveryWF h
      (foldl_addNewRoom_recordWF rooms (rec, [])
        (h rec (List.mem_of_find?_eq_some hrec)))

theorem serverCheckLoop_WF (st : DState) (now : Nat)
    (h : discoveryWF st) : discoveryWF (serverCheckLoop st now).1 := by
  unfold serverCheckLoop
  have haux : ∀ (l : List RSRecord) (acc : DState × List DEvent),
      discoveryWF acc.1 →
      discoveryWF (l.foldl (fun acc rec =>
        if rec.lastPing + serverTimeout < now then
          let next := removeServerByUrl acc.1 rec.publicUrl
          (next.1, acc.2 ++ next.2)
        else acc) acc).1 := by
    intro l
    induction l with
    | nil => intro acc hacc; exact hacc
    | cons rec rest ih =>
      intro acc hacc
      rw [List.foldl_cons]
      by_cases hc : rec.lastPing + serverTimeout < now
      · rw [if_pos hc]
        exact ih _ (removeServerByUrl_WF _ hacc)
      · rw [if_neg hc]
        exact ih _ hacc
  exact haux st.records (st, []) h

theorem discoveryStep_WF (st : DState) (ing : DIngest)
    (h : discoveryWF st) : discoveryWF (discoveryStep st ing).1 := by
  cases ing with
  | ping p now => exact receiveServerPing_WF st p now h
  | rsEvent ev => exact handleServerEvent_WF ev h
  | rsStop url => exact removeServerByUrl_WF url h
  | roomsReplyMsg url rooms => exact roomsReply_WF st url rooms h
  | checkTick now => exact serverCheckLoop_WF st now h

theorem discoveryRun_WF (ings : List DIngest) :
    discoveryWF (discoveryRun ings) := by
  have haux : ∀ (l : List DIngest) (st : DState), discoveryWF st →
      discoveryWF (l.foldl (fun st ing => (discoveryStep st ing).1) st) := by
    intro l
    induction l with
    | nil => intro st h; exact h
    | cons ing rest ih =>
      intro st h
      rw [List.foldl_cons]
      exact ih _ (discoveryStep_WF st ing h)
  refine haux ings { records := [] } ?_
  intro rec hrec
  cases hrec

/-- C10: in discovery's mirror, `_addNewRoom` is a no-op (state unchanged,
no `newRoom`/`roomJoined` event) when the record already holds a room
with that id, and `_addNewClient` is a no-op when the mirrored room
already holds a client with that id; consequently, in every run of a
`Discovery` instance, no server record ever holds two rooms with the same
id and no mirrored room ever holds two clients with the same id. -/
theorem discovery_no_duplicate_ids (rec : RSRecord) (room : MirrorRoom)
    (client : ClientSummaryV) (ings : List DIngest) :
    ((∃ r ∈ rec.rooms, r.id = room.id) → addNewRoom rec room = (rec, [])) ∧
    ((∃ c0 ∈ room.clients, c0.id = client.id) →
      addNewClient room client = (room, [])) ∧
    discoveryWF (discoveryRun ings) := by
  refine ⟨?_, ?_, discoveryRun_WF ings⟩
  · intro hdup
    obtain ⟨r, hr, he⟩ := hdup
    have hf : (rec.rooms.find? (fun r => r.id == room.id)).isSome :=
      List.find?_isSome.mpr ⟨r, hr, by simpa using he⟩
    simp [addNewRoom, hf]
  · intro hdup
    obtain ⟨c0, hc0, he⟩ := hdup
    have hf : (room.clients.find? (fun c => c.id == client.id)).isSome :=
      List.find?_isSome.mpr ⟨c0, hc0, by simpa using he⟩
    simp [addNewClient, hf]

/-- Witness for C10: adding room `R1` to a record that already mirrors an
`R1`, and adding client `C1` to a mirrored room that already holds a
`C1` (even with different properties), both leave the mirror unchanged
and emit nothing. -/
theorem discovery_no_duplicate_ids_witness :
    addNewRoom ⟨"rs-a", 1, [⟨"R1", "rs-a", [], none⟩], 5⟩
        ⟨"R1", "rs-a", [⟨"C2", none⟩], some (JVal.jNum 3)⟩ =
      (⟨"rs-a", 1, [⟨"R1", "rs-a", [], none⟩], 5⟩, []) ∧
    addNewClient ⟨"R1", "rs-a", [⟨"C1", none⟩], none⟩
        ⟨"C1", some (JVal.jBool true)⟩ =
      (⟨"R1", "rs-a", [⟨"C1", none⟩], none⟩, []) :=
  ⟨(discovery_no_duplicate_ids ⟨"rs-a", 1, [⟨"R1", "rs-a", [], none⟩], 5⟩
      ⟨"R1", "rs-a", [⟨"C2", none⟩], some (JVal.jNum 3)⟩
      ⟨"C1", some (JVal.jBool true)⟩ []).1
      ⟨⟨"R1", "rs-a", [], none⟩, by decide, rfl⟩,
   (discovery_no_duplicate_ids ⟨"rs-a", 1, [⟨"R1", "rs-a", [], none⟩], 5⟩
      ⟨"R1", "rs-a", [⟨"C1", none⟩], none⟩
      ⟨"C1", some (JVal.jBool true)⟩ []).2.1
      ⟨⟨"C1", none⟩, by decide, rfl⟩⟩
